import Mathlib

/-!
# Verification of the routerbolt compiler and emulator

This file gives a shallow embedding in Lean 4 of the parts of the
routerbolt toolchain (a compiler from a small structured language to a
line-numbered "Mindustry logic" instruction set, plus a reference
emulator for a subset of that instruction set) that are needed to settle
a collection of claims about the program, and proves or refutes each
claim.

The embedding follows the Rust sources:
 * `src/emulator.rs` — the reference emulator (`Emulator`, `execute`,
   `resolve`, `run`);
 * `src/codegen.rs`, `src/ir/*.rs` — the IR operations, their
   `code_size` and `generate` methods, and the internal-stack table
   generator;
 * `src/parser.rs` — the two-pass parser.

Rust machine integers (`usize`) are modelled as `Nat` with explicit
`% 2^64` where the source relies on wrapping; `Option`-returning and
`Result`-returning code is modelled with `Option` / `Except String`;
Rust panics (out-of-bounds indexing, `unreachable!`, failed asserts)
are modelled either by a dedicated error constructor (where a claim is
about their absence) or by `Except.error`.  Hash maps are modelled as
association lists whose lookup takes the most recently inserted
binding.
-/

namespace Routerbolt

/-- The modulus of Rust's 64-bit `usize` arithmetic. -/
def usizeMod : Nat := 2 ^ 64

/-! ## String helpers

Structurally recursive character-list implementations of the Rust
string operations the emulator uses, so that all definitions evaluate
by `rfl`/`decide`. -/

/-- If `pat` is a prefix of `l`, return the remainder of `l`. -/
def stripPre : List Char → List Char → Option (List Char)
  | [], l => some l
  | _ :: _, [] => none
  | p :: ps, c :: cs => if p = c then stripPre ps cs else none

/-- Fuel-driven worker for `replaceList`. -/
def replaceListAux (pat rep : List Char) : Nat → List Char → List Char
  | 0, l => l
  | _ + 1, [] => []
  | fuel + 1, c :: cs =>
    match stripPre pat (c :: cs) with
    | some rest => rep ++ replaceListAux pat rep fuel rest
    | none => c :: replaceListAux pat rep fuel cs

/-- Rust `str::replace` for a nonempty pattern: replaces non-overlapping
occurrences left to right. -/
def replaceList (pat rep l : List Char) : List Char :=
  replaceListAux pat rep l.length l

/-- Rust `str::replace` on `String`s (nonempty pattern). -/
def rustReplace (s pat rep : String) : String :=
  String.mk (replaceList pat.data rep.data s.data)

/-- Worker for `splitOnChar`. -/
def splitOnCharAux (sep : Char) : List Char → List Char → List (List Char)
  | [], acc => [acc.reverse]
  | c :: cs, acc =>
    if c = sep then acc.reverse :: splitOnCharAux sep cs []
    else splitOnCharAux sep cs (c :: acc)

/-- Split a character list at every occurrence of `sep` (the separator
is dropped; `n` separators yield `n+1` pieces). -/
def splitOnChar (sep : Char) (l : List Char) : List (List Char) :=
  splitOnCharAux sep l []

/-- Drop one trailing `'\r'`, as Rust's `str::lines` does for a line
terminated by `"\r\n"`. -/
def dropTrailingCR (l : List Char) : List Char :=
  match l.reverse with
  | '\r' :: rest => rest.reverse
  | _ => l

/-- Rust `str::lines`: pieces are terminated by `'\n'` (with a `'\r'`
immediately before the `'\n'` stripped); a final fragment without a
terminating newline is kept as-is, but an empty final fragment (the
string ended with `'\n'`) is not a line. -/
def rustLines (s : String) : List String :=
  match s.data with
  | [] => []
  | l =>
    let parts := splitOnChar '\n' l
    let terminated := parts.dropLast.map (fun p => String.mk (dropTrailingCR p))
    match parts.getLast? with
    | some [] => terminated
    | some last => terminated ++ [String.mk last]
    | none => terminated

/-- Numeric value of a digit character. -/
def digitVal (c : Char) : Nat := c.toNat - '0'.toNat

/-- Worker for `parseDigits`. -/
def parseDigitsAux : Nat → List Char → Option Nat
  | acc, [] => some acc
  | acc, c :: cs =>
    if c.isDigit then parseDigitsAux (acc * 10 + digitVal c) cs else none

/-- Parse a nonempty all-digit character list into its value. -/
def parseDigits : List Char → Option Nat
  | [] => none
  | c :: cs => if c.isDigit then parseDigitsAux (digitVal c) cs else none

/-- Rust `str::parse::<usize>()`: an optional leading `'+'`, then one or
more ASCII digits, with the value required to fit in `usize`
(otherwise `Err(PosOverflow)`). -/
def parseUsize (s : String) : Option Nat :=
  let l := match s.data with
    | '+' :: rest => rest
    | l => l
  match parseDigits l with
  | some n => if n < usizeMod then some n else none
  | none => none

/-! ## The variable map

`Emulator::vars` is a `HashMap<Rc<String>, usize>`; we model it as an
association list where lookup takes the first (= most recent) binding
and insertion removes any previous binding for the key. -/

/-- The emulator's variable map. -/
abbrev Varmap := List (String × Nat)

/-- `HashMap::get`. -/
def lookupVar : Varmap → String → Option Nat
  | [], _ => none
  | (k, v) :: rest, key => if k = key then some v else lookupVar rest key

/-- `HashMap::remove`. -/
def eraseVar (m : Varmap) (key : String) : Varmap :=
  m.filter (fun kv => kv.1 ≠ key)

/-- `HashMap::insert`. -/
def insertVar (m : Varmap) (key : String) (v : Nat) : Varmap :=
  (key, v) :: eraseVar m key

/-! ## The emulator (`src/emulator.rs`) -/

/-- The reserved program-counter variable name (`Emulator::counter`). -/
def counterName : String := "@counter"

/-- `emulator::Math`. -/
inductive EMath where
  | Add | Sub | Mul | Mod
deriving DecidableEq, Repr

/-- `emulator::Cond`. -/
inductive ECond where
  | Always | Lt | Gt | Eq | Ne
deriving DecidableEq, Repr

/-- `emulator::Instruction`. -/
inductive Instruction where
  | Pause
  | End
  | Math (op : EMath) (dest arg1 arg2 : String)
  | Read (name cell address : String)
  | Write (name cell address : String)
  | Set (dest source : String)
  | Jump (cond : ECond) (dest : Nat) (arg1 arg2 : String)
  | Print (what : String)
  | PrintFlush (output : String)
deriving DecidableEq, Repr

/-- `Display for Math`. -/
def emathToString : EMath → String
  | .Add => "add"
  | .Sub => "sub"
  | .Mul => "mul"
  | .Mod => "mod"

/-- `Display for Cond`. -/
def econdToString : ECond → String
  | .Always => "always"
  | .Lt => "lessThan"
  | .Gt => "greaterThan"
  | .Eq => "equal"
  | .Ne => "notEqual"

/-- `Display for Instruction`. -/
def instrToString : Instruction → String
  | .Pause => "pause"
  | .End => "end"
  | .Math op dest arg1 arg2 =>
    "op " ++ emathToString op ++ " " ++ dest ++ " " ++ arg1 ++ " " ++ arg2
  | .Read name cell address => "read " ++ name ++ " " ++ cell ++ " " ++ address
  | .Write name cell address => "write " ++ name ++ " " ++ cell ++ " " ++ address
  | .Set dest source => "set " ++ dest ++ " " ++ source
  | .Jump cond dest arg1 arg2 =>
    "jump " ++ toString dest ++ " " ++ econdToString cond ++ " " ++ arg1 ++ " " ++ arg2
  | .Print what => "print " ++ what
  | .PrintFlush output => "printflush " ++ output

/-- `emulator::Cell`: a named 512-slot array of optional integers. -/
structure Cell where
  name : String
  data : List (Option Nat)
deriving DecidableEq, Repr

/-- `Cell::new`. -/
def Cell.new (name : String) : Cell :=
  ⟨name, List.replicate 512 none⟩

/-- `emulator::resolve`: an operand token that parses as a `usize` is
that literal; otherwise it is looked up in the variable map. -/
def resolve (vars : Varmap) (arg : String) : Option Nat :=
  match parseUsize arg with
  | some n => some n
  | none => lookupVar vars arg

/-- Rust's derived `PartialOrd`/`Ord` on `Option<usize>`:
`None` is less than every `Some`. -/
def optLt : Option Nat → Option Nat → Bool
  | none, none => false
  | none, some _ => true
  | some _, none => false
  | some a, some b => a < b

/-- The `met` computation in `execute`'s `Instruction::Jump` arm:
each comparison is the Rust comparison of the two `Option<usize>`
results of `resolve`. -/
def condMet : ECond → Option Nat → Option Nat → Bool
  | .Always, _, _ => true
  | .Eq, o1, o2 => o1 == o2
  | .Ne, o1, o2 => o1 != o2
  | .Lt, o1, o2 => optLt o1 o2
  | .Gt, o1, o2 => optLt o2 o1

/-- The `r` computation in `execute`'s `Instruction::Math` arm:
wrapping `usize` arithmetic, with `mod` by zero defined as `0`. -/
def mathEval : EMath → Nat → Nat → Nat
  | .Add, a, b => (a + b) % usizeMod
  | .Sub, a, b => (a + (usizeMod - b % usizeMod)) % usizeMod
  | .Mul, a, b => (a * b) % usizeMod
  | .Mod, a, b => if 0 < b then a % b else 0

/-- `emulator::execute`: one instruction's effect on the cell, the
variable map and the print buffer. -/
def execute (instruction : Instruction) (cell : Option Cell) (vars : Varmap)
    (printBuffer : List String) : Option Cell × Varmap × List String :=
  match instruction with
  | .End => (cell, vars, printBuffer)
  | .Pause => (cell, vars, printBuffer)
  | .Math math dest op1 op2 =>
    let a := (resolve vars op1).getD 0
    let b := (resolve vars op2).getD 0
    (cell, insertVar vars dest (mathEval math a b), printBuffer)
  | .Read name cellName address =>
    let val : Option Nat :=
      match resolve vars address, cell with
      | some a, some c =>
        if c.name = cellName ∧ a < c.data.length then (c.data.getD a none) else none
      | _, _ => none
    match val with
    | some v => (cell, insertVar vars name v, printBuffer)
    | none => (cell, eraseVar vars name, printBuffer)
  | .Write value cellName address =>
    (match resolve vars address, cell with
     | some a, some c =>
       if c.name = cellName ∧ a < c.data.length then
         (some { c with data := c.data.set a (resolve vars value) }, vars, printBuffer)
       else (some c, vars, printBuffer)
     | _, cell => (cell, vars, printBuffer))
  | .Set dest source =>
    (match resolve vars source with
     | some v => (cell, insertVar vars dest v, printBuffer)
     | none => (cell, eraseVar vars dest, printBuffer))
  | .PrintFlush _ => (cell, vars, printBuffer)
  | .Print arg =>
    if stripPre ['"'] arg.data ≠ none ∧ arg.data.getLast? = some '"' ∧ 2 ≤ arg.data.length then
      let inner := String.mk (arg.data.drop 1).dropLast
      (cell, vars,
        printBuffer ++ [rustReplace (rustReplace (rustReplace inner "\\n" "\n") "\\t" "\t") "\\\"" "\""])
    else
      let v := match resolve vars arg with
        | some n => toString n
        | none => "null"
      (cell, vars, printBuffer ++ [v])
  | .Jump cond dest op1 op2 =>
    if condMet cond (resolve vars op1) (resolve vars op2) then
      (cell, insertVar vars counterName dest, printBuffer)
    else (cell, vars, printBuffer)

/-- `emulator::Emulator` (the `counter` field is the constant
`counterName`). -/
structure Emulator where
  cell : Option Cell
  instructions : List Instruction
  vars : Varmap
  watches : List String
  breakpoints : List Nat
  printBuffer : List String
deriving DecidableEq, Repr

/-- A fresh emulator over a parsed program (the state `Emulator::new`
builds). -/
def Emulator.new (cell : Option Cell) (instructions : List Instruction) : Emulator :=
  ⟨cell, instructions, [], [], [], []⟩

/-- The watch column of a trace line (the closure in `Emulator::run`). -/
def watchFormat (vars : Varmap) (n : String) : String :=
  if stripPre ['*'] n.data ≠ none then
    n ++ ":<not_implemented>"
  else
    match lookupVar vars n with
    | some v => n ++ ":" ++ toString v ++ " "
    | none => n ++ ":null "

/-- The per-step trace line `"<ip>:\t<watches>\"<instruction>\""`. -/
def traceLine (ip : Nat) (watchStr : String) (instruction : Instruction) : String :=
  toString ip ++ ":\t" ++ watchStr ++ "\"" ++ instrToString instruction ++ "\""

/-- The lines a `printflush` appends: one `"\tPrinted to <target>: <line>"`
per line of the joined print buffer. -/
def printFlushLines (which : String) (printBuffer : List String) : List String :=
  (rustLines (String.join printBuffer)).map
    (fun line => "\tPrinted to " ++ which ++ ": " ++ line)

/-- The result of `Emulator::run`.  `oob` models the Rust panic on the
out-of-bounds index `self.instructions[ip]`; `ok` carries the final
emulator state and the output lines. -/
inductive RunResult where
  | ok : Emulator → List String → RunResult
  | oob : RunResult
deriving DecidableEq, Repr

/-- The output lines of a run (`[]` for the panic case). -/
def RunResult.outputLines : RunResult → List String
  | .ok _ out => out
  | .oob => []

/-- The `@counter` entry of a run's final variable map. -/
def RunResult.finalCounter : RunResult → Option Nat
  | .ok e _ => lookupVar e.vars counterName
  | .oob => none

/-- `self.vars.get(&self.counter).unwrap_or(&0)`: the value of
`@counter`, defaulting to 0. -/
def counterValOf (e : Emulator) : Nat :=
  (lookupVar e.vars counterName).getD 0

/-- The `self.vars.insert(self.counter.clone(), 0)` wrap performed when
a run stops at `end` or a `@counter` overflow. -/
def withCounterZero (e : Emulator) : Emulator :=
  { e with vars := insertVar e.vars counterName 0 }

/-- One run-loop step's state change: `@counter` is preset to `ip + 1`,
`instruction` executes, and a `printflush` clears the print buffer. -/
def stepExec (e : Emulator) (ip : Nat) (instruction : Instruction) : Emulator :=
  let vars1 := insertVar e.vars counterName (ip + 1)
  let res := execute instruction e.cell vars1 e.printBuffer
  let pb3 := match instruction with
    | .PrintFlush _ => []
    | _ => res.2.2
  { e with cell := res.1, vars := res.2.1, printBuffer := pb3 }

/-- One run-loop step's output: the trace line, plus the printed lines
when the instruction is a `printflush`. -/
def stepOut (e : Emulator) (out : List String) (ip : Nat)
    (instruction : Instruction) : List String :=
  let vars1 := insertVar e.vars counterName (ip + 1)
  let out1 := out ++
    [traceLine ip (String.join (e.watches.map (watchFormat vars1))) instruction]
  match instruction with
  | .PrintFlush which =>
    out1 ++ printFlushLines which (execute instruction e.cell vars1 e.printBuffer).2.2
  | _ => out1

/-- The `while output.len() < max_steps` loop of `Emulator::run`.

The `fuel` argument only serves Lean's termination checker: every
iteration appends at least one line to `out`, so calling with
`fuel = maxSteps` (as `run` does) the fuel can only run out when
`out.length ≥ maxSteps`, in which case returning `(e, out)` is exactly
what the source loop does. -/
def runLoop (maxSteps : Nat) : Nat → Bool → Emulator → List String → RunResult
  | 0, _, e, out => .ok e out
  | fuel + 1, firstStep, e, out =>
    if out.length < maxSteps then
      let ip := counterValOf e
      if firstStep = false ∧ ip ∈ e.breakpoints then
        .ok e (out ++ ["Hit breakpoint at " ++ toString ip])
      else
        match e.instructions[ip]? with
        | none => .oob
        | some instruction =>
          let e2 := stepExec e ip instruction
          let out2 := stepOut e out ip instruction
          if instruction = .End ∨ e.instructions.length ≤ counterValOf e2 then
            .ok (withCounterZero e2) out2
          else if instruction = .Pause then
            .ok e2 out2
          else
            runLoop maxSteps fuel false e2 out2
    else .ok e out

/-- `Emulator::run`. -/
def run (e : Emulator) (maxSteps : Nat) : RunResult :=
  if e.instructions = [] then .ok e []
  else runLoop maxSteps maxSteps true e []

/-- `Emulator::set_breakpoints`. -/
def setBreakpoints (e : Emulator) (breakpoints : List Nat) : Emulator :=
  { e with breakpoints := breakpoints }

/-- `Emulator::set_watches`. -/
def setWatches (e : Emulator) (watches : List String) : Emulator :=
  { e with watches := watches }

/-! ## The compiler data model (`src/types`, `src/codegen.rs`)

`Address` and `AddressDelta` are opaque `usize` wrappers with checked
arithmetic; we model both as `Nat` (their arithmetic never under- or
overflows on the reachable inputs below).  `LabelName` and
`FunctionName` accept any string and are modelled as `String`.
`StackVar` keeps its leading `'*'`, exactly as `Term::try_from` stores
the whole token. -/

/-- `codegen::Backend`. -/
inductive Backend where
  | Internal
  | External
deriving DecidableEq, Repr

/-- `codegen::InternalParams`. -/
structure InternalParams where
  pushEntrySize : Nat
  popEntrySize : Nat
  pokeEntrySize : Nat
  pushTableStart : Nat
  popTableStart : Nat
  pokeTableStart : Nat
deriving DecidableEq, Repr

/-- `codegen::BackendParams` (the `External` payload is the cell name). -/
inductive BackendParams where
  | Internal (params : InternalParams)
  | External (cellName : String)
deriving DecidableEq, Repr

/-- `parser::parse`'s computation of the internal backend parameters at
the end of pass 2 (`ic` is the final `instruction_count`). -/
def computeInternalParams (ic : Nat) (stackSize : Nat) : InternalParams :=
  let pushTableStart := ic + 1
  let popTableStart := pushTableStart + 3 * stackSize
  let pokeTableStart := popTableStart + 2 * stackSize
  ⟨3, 2, 2, pushTableStart, popTableStart, pokeTableStart⟩

/-- `ir::StackConfig`. -/
inductive StackConfig where
  | Internal (size : Nat)
  | External (cellName : String)
deriving DecidableEq, Repr

/-- `types::Term`: a `*`-prefixed token is a stack variable (the stored
string keeps the `*`), anything else is a passthrough Mindustry term. -/
inductive Term where
  | StackVar (name : String)
  | Mindustry (name : String)
deriving DecidableEq, Repr

/-- `Display`/`AsRef<str>` for `Term`: both variants show the stored
token. -/
def Term.text : Term → String
  | .StackVar s => s
  | .Mindustry s => s

/-- `Term::try_from(&str)`: empty tokens are invalid; `*`-prefixed
tokens are stack variables. -/
def termFromStr (s : String) : Except String Term :=
  match s.data with
  | [] => .error "Symbol may not be empty"
  | '*' :: _ => .ok (.StackVar s)
  | _ => .ok (.Mindustry s)

/-- `MindustryTerm::try_from(&str)`: as `Term::try_from` but stack
variables are rejected. -/
def mindustryTermFromStr (s : String) : Except String String :=
  match termFromStr s with
  | .ok (.Mindustry m) => .ok m
  | .ok (.StackVar _) => .error "Stack var forbidden here (starts with *)"
  | .error e => .error e

/-- `StackVar::try_from(&str)`. -/
def stackVarFromStr (s : String) : Except String String :=
  match termFromStr s with
  | .ok (.StackVar v) => .ok v
  | .ok (.Mindustry _) => .error "Stack var required here (starts with *)"
  | .error e => .error e

/-- `types::Condition`. -/
structure Condition where
  cond : String
  arg1 : String
  arg2 : String
deriving DecidableEq, Repr

/-- `Display for Condition`. -/
def Condition.toText (c : Condition) : String :=
  c.cond ++ " " ++ c.arg1 ++ " " ++ c.arg2

/-- `Condition::always()`: the sentinel `always x false`. -/
def conditionAlways : Condition := ⟨"always", "x", "false"⟩

/-- `Condition::never()`: the sentinel `equal 0 1`. -/
def conditionNever : Condition := ⟨"equal", "0", "1"⟩

/-- Generic association-list lookup (models `HashMap::get`). -/
def lookupAssoc {α : Type} : List (String × α) → String → Option α
  | [], _ => none
  | (k, v) :: rest, key => if k = key then some v else lookupAssoc rest key

/-- Replace the binding of `key` (models `HashMap::get_mut` updates). -/
def updateAssoc {α : Type} : List (String × α) → String → α → List (String × α)
  | [], _, _ => []
  | (k, v) :: rest, key, nv =>
    if k = key then (k, nv) :: rest else (k, v) :: updateAssoc rest key nv

/-- `ir::function::FunctionOp`.  `locals` maps a stack-variable name
(with its `*`) to its `FrameIndex`; insertion order gives the index. -/
structure FunctionOp where
  name : String
  args : List String
  returns : List Term
  locals : List (String × Nat)
  address : Option Nat
deriving DecidableEq, Repr

/-- `FunctionOp::stack_var_depth`:
`depth = locals.len() - frame_index`. -/
def stackVarDepth (f : FunctionOp) (name : String) : Except String Nat :=
  match lookupAssoc f.locals name with
  | some offset => .ok (f.locals.length - offset)
  | none =>
    .error ("innermost function definition does not have let variable named " ++ name)

/-- `ir::function::CallOp`. -/
structure CallOp where
  callSiteFunction : Option String
  targetFunction : String
  args : List Term
  returns : List Term
  beforeCallSize : Nat
  totalSize : Nat
deriving DecidableEq, Repr

/-- The per-argument cost in `CallOp::new`. -/
def callArgSize (backend : Backend) : Term → Nat
  | .StackVar _ => match backend with | .Internal => 7 | .External => 4
  | .Mindustry _ => match backend with | .Internal => 4 | .External => 2

/-- The per-return-binding cost in `CallOp::new`. -/
def callRetSize (backend : Backend) : Term → Nat
  | .StackVar _ => match backend with | .Internal => 5 | .External => 2
  | .Mindustry _ => 1

/-- The `before_call_size` computation in `CallOp::new`: push-retaddr
trampoline + per-argument cost + one stack-pointer bump when the callee
has locals beyond its args + the jump itself. -/
def callBeforeSize (backend : Backend) (args : List Term)
    (targetFunctionNumLocals : Nat) : Nat :=
  (match backend with | .Internal => 4 | .External => 3)
    + (args.map (callArgSize backend)).sum
    + (if targetFunctionNumLocals ≠ args.length then 1 else 0)
    + 1

/-- `CallOp::new`. -/
def CallOp.new (args returns : List Term) (targetFunctionNumLocals : Nat)
    (targetFunction : String) (callSiteFunction : Option String)
    (backend : Backend) : CallOp :=
  let before := callBeforeSize backend args targetFunctionNumLocals
  ⟨callSiteFunction, targetFunction, args, returns, before,
    before + (returns.map (callRetSize backend)).sum⟩

/-- `ir::function::ReturnOp`. -/
structure ReturnOp where
  function : String
  values : List Term
  size : Nat
deriving DecidableEq, Repr

/-- The per-value cost in `ReturnOp::new`. -/
def returnValueSize (backend : Backend) : Term → Nat
  | .StackVar _ => match backend with | .Internal => 5 | .External => 2
  | .Mindustry _ => 1

/-- `ReturnOp::new`: arity must match the function's declared returns;
the size is the per-value costs plus one stack-pointer adjustment plus
the pop-return-address sequence. -/
def ReturnOp.new (f : FunctionOp) (valueNames : List String)
    (backend : Backend) : Except String ReturnOp :=
  if valueNames.length ≠ f.returns.length then
    .error ("function specifies " ++ toString f.returns.length ++
      " return values but return statement has " ++ toString valueNames.length)
  else do
    let values ← valueNames.mapM termFromStr
    .ok ⟨f.name, values,
      (values.map (returnValueSize backend)).sum + 1 +
        (match backend with | .Internal => 4 | .External => 1)⟩

/-- `ir::ir_op::IrOp`.  Forward references (`If`/`Else` end addresses,
loop `forward` pairs) are `Option`s resolved exactly once at the
matching `}`; `While` carries the condition-check sequence emitted at
the end of the loop.  `Function` stores the zero code size computed at
parse time. -/
inductive IrOp where
  | CallProc (target : String)
  | Label (target : String)
  | RetProc
  | Push
  | Pop
  | Peek (depth : String)
  | Poke (depth : String)
  | Jump (target : String) (condition : Condition)
  | MindustryCommand (command : List String)
  | If (condition : Condition) (endAddr : Option Nat)
  | Else (endAddr : Option Nat)
  | While (bodyStart : Nat) (endSequence : List IrOp) (condition : Condition)
      (forward : Option (Nat × Nat))
  | DoWhile (bodyStart : Nat) (forward : Option (Nat × Nat))
  | InfiniteLoop (bodyStart : Nat) (endAddr : Option Nat)
  | Break (index : Nat)
  | Continue (index : Nat)
  | LoopEnd (bodyStart : Nat) (condition : Condition)
  | Let (name : String) (pos : Nat)
  | GetStack (global : String) (stack : String) (function : String)
  | SetStack (global : String) (stack : String) (function : String)
  | Set (dest source : String)
  | Math (operation dest arg1 arg2 : String)
  | Function (name : String) (size : Nat)
  | Call (op : CallOp)
  | Return (op : ReturnOp)
deriving Repr

/-- `ir::IntermediateRepresentation`. -/
structure Ir where
  ops : List IrOp
  stackConfig : StackConfig
  labels : List (String × Nat)
  functions : List (String × FunctionOp)
  backend : Backend
  backendParams : BackendParams
deriving Repr

/-- `Operation::code_size` for every `IrOp` variant. -/
def codeSize (backend : Backend) : IrOp → Nat
  | .CallProc _ => match backend with | .Internal => 5 | .External => 4
  | .Label _ => 0
  | .RetProc => match backend with | .Internal => 5 | .External => 2
  | .Push => match backend with | .Internal => 3 | .External => 2
  | .Pop => match backend with | .Internal => 4 | .External => 2
  | .Peek depth =>
    (match backend, parseUsize depth with
     | .Internal, some _ => 4
     | .Internal, none => 5
     | .External, some _ => 2
     | .External, none => 3)
  | .Poke depth =>
    (match backend, parseUsize depth with
     | .Internal, some _ => 4
     | .Internal, none => 5
     | .External, some _ => 2
     | .External, none => 3)
  | .Jump _ _ => 1
  | .MindustryCommand _ => 1
  | .If _ _ => 2
  | .Else _ => 1
  | .While _ _ _ _ => 1
  | .DoWhile _ _ => 0
  | .InfiniteLoop _ _ => 0
  | .Break _ => 1
  | .Continue _ => 1
  | .LoopEnd _ _ => 1
  | .Let _ _ => 0
  | .GetStack global _ _ =>
    (match backend with
     | .Internal => if global ≠ "MF_acc" then 5 else 4
     | .External => 2)
  | .SetStack global _ _ =>
    (match backend with
     | .Internal => if global ≠ "MF_acc" then 5 else 4
     | .External => 2)
  | .Set _ _ => 1
  | .Math _ _ _ _ => 1
  | .Function _ size => size
  | .Call op => op.totalSize
  | .Return op => op.size

/-- `IrSequence::code_size`. -/
def codeSizeSeq (backend : Backend) (ops : List IrOp) : Nat :=
  (ops.map (codeSize backend)).sum

/-- Join tokens with single spaces (`Display for MindustryCommand`). -/
def joinSpace : List String → String
  | [] => ""
  | x :: xs => xs.foldl (fun acc t => acc ++ " " ++ t) x

/-- `ir.functions()[name]` (a Rust index that panics when the name is
absent; the panic is modelled as an error). -/
def getFn (ir : Ir) (name : String) : Except String FunctionOp :=
  match lookupAssoc ir.functions name with
  | some f => .ok f
  | none => .error "panic: function not in functions map"

/-- `ir.labels()[&target]` (panics when the label is absent). -/
def getLabel (ir : Ir) (target : String) : Except String Nat :=
  match lookupAssoc ir.labels target with
  | some a => .ok a
  | none => .error "panic: label not in labels map"

/-- The argument-pushing loop of `CallOp::generate` (`j` is the
position of the argument, used to correct the stack depth for the
values already pushed). -/
def genCallArgs (ir : Ir) (callSiteFunction : Option String) :
    Nat → List Term → Except String (List String)
  | _, [] => .ok []
  | j, arg :: rest => do
    let lines ← (match arg with
      | .StackVar sv => do
        let csf ← (match callSiteFunction with
          | some f => Except.ok f
          | none => Except.error "Internal error: forward reference")
        let fop ← getFn ir csf
        let depth0 ← stackVarDepth fop sv
        let depth := depth0 + (j + 1)
        (match ir.backendParams with
         | .Internal p =>
           Except.ok ["op add MF_resume @counter 3",
             "op sub MF_tmp MF_stack_sz " ++ toString depth,
             "op mul MF_tmp " ++ toString p.popEntrySize ++ " MF_tmp",
             "op add @counter " ++ toString p.popTableStart ++ " MF_tmp",
             "op add MF_resume @counter 2",
             "op mul MF_tmp " ++ toString p.pushEntrySize ++ " MF_stack_sz",
             "op add @counter " ++ toString p.pushTableStart ++ " MF_tmp"]
         | .External cell =>
           Except.ok ["op sub MF_tmp MF_stack_sz " ++ toString depth,
             "read MF_acc " ++ cell ++ " MF_tmp",
             "write MF_acc " ++ cell ++ " MF_stack_sz",
             "op add MF_stack_sz MF_stack_sz 1"])
      | .Mindustry m =>
        (match ir.backendParams with
         | .Internal p =>
           Except.ok ["set MF_acc " ++ m,
             "op add MF_resume @counter 2",
             "op mul MF_tmp " ++ toString p.pushEntrySize ++ " MF_stack_sz",
             "op add @counter " ++ toString p.pushTableStart ++ " MF_tmp"]
         | .External cell =>
           Except.ok ["write " ++ m ++ " " ++ cell ++ " MF_stack_sz",
             "op add MF_stack_sz MF_stack_sz 1"]))
    let restLines ← genCallArgs ir callSiteFunction (j + 1) rest
    .ok (lines ++ restLines)

/-- The return-binding loop of `CallOp::generate`. -/
def genCallReturns (ir : Ir) (callSiteFunction : Option String) :
    Nat → List Term → Except String (List String)
  | _, [] => .ok []
  | j, arg :: rest => do
    let lines ← (match arg with
      | .StackVar sv => do
        let csf ← (match callSiteFunction with
          | some f => Except.ok f
          | none => Except.error "Internal error: Forward refeerence")
        let fop ← getFn ir csf
        let depth ← stackVarDepth fop sv
        (match ir.backendParams with
         | .Internal p =>
           Except.ok ["op add MF_resume @counter 4",
             "set MF_acc MF_ret" ++ toString j,
             "op sub MF_tmp MF_stack_sz " ++ toString depth,
             "op mul MF_tmp " ++ toString p.pokeEntrySize ++ " MF_tmp",
             "op add @counter " ++ toString p.pokeTableStart ++ " MF_tmp"]
         | .External cell =>
           Except.ok ["op sub MF_tmp MF_stack_sz " ++ toString depth,
             "write MF_ret" ++ toString j ++ " " ++ cell ++ " MF_tmp"])
      | .Mindustry m =>
        Except.ok ["set " ++ m ++ " MF_ret" ++ toString j])
    let restLines ← genCallReturns ir callSiteFunction (j + 1) rest
    .ok (lines ++ restLines)

/-- `CallOp::generate`. -/
def genCallOp (ir : Ir) (op : CallOp) : Except String (List String) := do
  let func ← (match lookupAssoc ir.functions op.targetFunction with
    | some f => Except.ok f
    | none => Except.error ("function " ++ op.targetFunction ++ " is not found"))
  if op.returns.length ≠ func.returns.length then
    .error "call site return-binding arity mismatch"
  else if op.args.length ≠ func.args.length then
    .error "call site argument arity mismatch"
  else do
    let head := (match ir.backendParams with
      | .Internal p =>
        ["op add MF_acc @counter " ++ toString (op.beforeCallSize - 1),
         "op add MF_resume @counter 2",
         "op mul MF_tmp " ++ toString p.pushEntrySize ++ " MF_stack_sz",
         "op add @counter " ++ toString p.pushTableStart ++ " MF_tmp"]
      | .External cell =>
        ["op add MF_acc @counter " ++ toString (op.beforeCallSize - 1),
         "write MF_acc " ++ cell ++ " MF_stack_sz",
         "op add MF_stack_sz MF_stack_sz 1"])
    let argLines ← genCallArgs ir op.callSiteFunction 0 op.args
    let additional := func.locals.length - func.args.length
    let adj := if 0 < additional then
      ["op add MF_stack_sz MF_stack_sz " ++ toString additional] else []
    let addr ← (match func.address with
      | some a => Except.ok a
      | none => Except.error "Internal error: Forward reference")
    let retLines ← genCallReturns ir op.callSiteFunction 0 op.returns
    .ok (head ++ argLines ++ adj ++
      ["jump " ++ toString addr ++ " always x false"] ++ retLines)

/-- The value-materialising loop of `ReturnOp::generate`. -/
def genReturnValues (ir : Ir) (f : FunctionOp) :
    Nat → List Term → Except String (List String)
  | _, [] => .ok []
  | j, arg :: rest => do
    let lines ← (match arg with
      | .StackVar sv => do
        let depth ← stackVarDepth f sv
        (match ir.backendParams with
         | .Internal p =>
           Except.ok ["op add MF_resume @counter 3",
             "op sub MF_tmp MF_stack_sz " ++ toString depth,
             "op mul MF_tmp " ++ toString p.popEntrySize ++ " MF_tmp",
             "op add @counter " ++ toString p.popTableStart ++ " MF_tmp",
             "set MF_ret" ++ toString j ++ " MF_acc"]
         | .External cell =>
           Except.ok ["op sub MF_tmp MF_stack_sz " ++ toString depth,
             "read MF_ret" ++ toString j ++ " " ++ cell ++ " MF_tmp"])
      | .Mindustry m =>
        Except.ok ["set MF_ret" ++ toString j ++ " " ++ m])
    let restLines ← genReturnValues ir f (j + 1) rest
    .ok (lines ++ restLines)

/-- `ReturnOp::generate`. -/
def genReturnOp (ir : Ir) (op : ReturnOp) : Except String (List String) := do
  let func ← getFn ir op.function
  if op.values.length ≠ func.returns.length then
    .error "return value arity mismatch"
  else do
    let valueLines ← genReturnValues ir func 0 op.values
    let drop := ["op sub MF_stack_sz MF_stack_sz " ++
      toString (1 + func.locals.length)]
    let tail := (match ir.backendParams with
      | .Internal p =>
        ["op add MF_resume @counter 2",
         "op mul MF_tmp " ++ toString p.popEntrySize ++ " MF_stack_sz",
         "op add @counter " ++ toString p.popTableStart ++ " MF_tmp",
         "set @counter MF_acc"]
      | .External cell =>
        ["read @counter " ++ cell ++ " MF_stack_sz"])
    .ok (valueLines ++ drop ++ tail)

/-- `Operation::generate` for every `IrOp` variant.  The returned list
holds exactly the lines the Rust method appends to `output`;
`ic` is the generator's running `instruction_count` at the start of the
op (used by `IfOp::generate` for its skip target).  Annotated output is
not modelled.  Rust panics (missing map keys, `unreachable!`) and
`bail!`s both become `Except.error`. -/
def genOp (ir : Ir) (ic : Nat) : IrOp → Except String (List String)
  | .CallProc target => do
    let addr ← getLabel ir target
    (match ir.backendParams with
     | .Internal p =>
       Except.ok ["op add MF_acc @counter 4",
         "op add MF_resume @counter 2",
         "op mul MF_tmp " ++ toString p.pushEntrySize ++ " MF_stack_sz",
         "op add @counter " ++ toString p.pushTableStart ++ " MF_tmp",
         "set @counter " ++ toString addr]
     | .External cell =>
       Except.ok ["op add MF_acc @counter 3",
         "write MF_acc " ++ cell ++ " MF_stack_sz",
         "op add MF_stack_sz MF_stack_sz 1",
         "set @counter " ++ toString addr])
  | .Label _ => .ok []
  | .RetProc =>
    (match ir.backendParams with
     | .Internal p =>
       Except.ok ["op sub MF_stack_sz MF_stack_sz 1",
         "op add MF_resume @counter 2",
         "op mul MF_tmp " ++ toString p.popEntrySize ++ " MF_stack_sz",
         "op add @counter " ++ toString p.popTableStart ++ " MF_tmp",
         "set @counter MF_acc"]
     | .External cell =>
       Except.ok ["op sub MF_stack_sz MF_stack_sz 1",
         "read @counter " ++ cell ++ " MF_stack_sz"])
  | .Push =>
    (match ir.backendParams with
     | .Internal p =>
       Except.ok ["op add MF_resume @counter 2",
         "op mul MF_tmp " ++ toString p.pushEntrySize ++ " MF_stack_sz",
         "op add @counter " ++ toString p.pushTableStart ++ " MF_tmp"]
     | .External cell =>
       Except.ok ["write MF_acc " ++ cell ++ " MF_stack_sz",
         "op add MF_stack_sz MF_stack_sz 1"])
  | .Pop =>
    (match ir.backendParams with
     | .Internal p =>
       Except.ok ["op sub MF_stack_sz MF_stack_sz 1",
         "op add MF_resume @counter 2",
         "op mul MF_tmp " ++ toString p.popEntrySize ++ " MF_stack_sz",
         "op add @counter " ++ toString p.popTableStart ++ " MF_tmp"]
     | .External cell =>
       Except.ok ["op sub MF_stack_sz MF_stack_sz 1",
         "read MF_acc " ++ cell ++ " MF_stack_sz"])
  | .Peek depth =>
    let head := (match parseUsize depth with
      | some n => ["op sub MF_tmp MF_stack_sz " ++ toString (n + 1)]
      | none => ["op sub MF_tmp MF_stack_sz " ++ depth,
          "op sub MF_tmp MF_tmp 1"])
    (match ir.backendParams with
     | .Internal p =>
       Except.ok (head ++ ["op add MF_resume @counter 2",
         "op mul MF_tmp " ++ toString p.popEntrySize ++ " MF_tmp",
         "op add @counter " ++ toString p.popTableStart ++ " MF_tmp"])
     | .External cell =>
       Except.ok (head ++ ["read MF_acc " ++ cell ++ " MF_tmp"]))
  | .Poke depth =>
    let head := (match parseUsize depth with
      | some n => ["op sub MF_tmp MF_stack_sz " ++ toString (n + 1)]
      | none => ["op sub MF_tmp MF_stack_sz " ++ depth,
          "op sub MF_tmp MF_tmp 1"])
    (match ir.backendParams with
     | .Internal p =>
       Except.ok (head ++ ["op add MF_resume @counter 2",
         "op mul MF_tmp " ++ toString p.pokeEntrySize ++ " MF_tmp",
         "op add @counter " ++ toString p.pokeTableStart ++ " MF_tmp"])
     | .External cell =>
       Except.ok (head ++ ["write MF_acc " ++ cell ++ " MF_tmp"]))
  | .Jump target condition => do
    let addr ← getLabel ir target
    .ok ["jump " ++ toString addr ++ " " ++ condition.toText]
  | .MindustryCommand command => .ok [joinSpace command]
  | .If condition endAddr => do
    let e ← (match endAddr with
      | some e => Except.ok e
      | none => Except.error "Internal error: Forward refeerence")
    .ok ["jump " ++ toString (ic + 2) ++ " " ++ condition.toText,
      "jump " ++ toString e ++ " always x false"]
  | .Else endAddr => do
    let e ← (match endAddr with
      | some e => Except.ok e
      | none => Except.error "Internal error: Forward refeerence")
    .ok ["jump " ++ toString e ++ " always x false"]
  | .While _ _ _ forward => do
    let f ← (match forward with
      | some f => Except.ok f
      | none => Except.error "Internal error: Forward refeerence")
    .ok ["jump " ++ toString f.1 ++ " always x false"]
  | .DoWhile _ _ => .ok []
  | .InfiniteLoop _ _ => .ok []
  | .Break index =>
    (match ir.ops[index]? with
     | some (.While _ _ _ forward) =>
       (match forward with
        | some f => Except.ok ["jump " ++ toString f.2 ++ " always x false"]
        | none => Except.error "Internal error: Forward refeerence")
     | some (.InfiniteLoop _ endAddr) =>
       (match endAddr with
        | some e => Except.ok ["jump " ++ toString e ++ " always x false"]
        | none => Except.error "Internal error: Forward refeerence")
     | some (.DoWhile _ forward) =>
       (match forward with
        | some f => Except.ok ["jump " ++ toString f.2 ++ " always x false"]
        | none => Except.error "Internal error: Forward refeerence")
     | _ => Except.error "panic: Break not from recognized loop")
  | .Continue index =>
    (match ir.ops[index]? with
     | some (.While _ _ _ forward) =>
       (match forward with
        | some f => Except.ok ["jump " ++ toString f.1 ++ " always x false"]
        | none => Except.error "Internal error: Forward refeerence")
     | some (.InfiniteLoop bodyStart _) =>
       Except.ok ["jump " ++ toString bodyStart ++ " always x false"]
     | some (.DoWhile _ forward) =>
       (match forward with
        | some f => Except.ok ["jump " ++ toString f.1 ++ " always x false"]
        | none => Except.error "Internal error: Forward refeerence")
     | _ => Except.error "panic: Continue not from recognized loop")
  | .LoopEnd bodyStart condition =>
    .ok ["jump " ++ toString bodyStart ++ " " ++ condition.toText]
  | .Let _ _ => .ok []
  | .GetStack global stack function => do
    let fop ← getFn ir function
    let depth ← stackVarDepth fop stack
    (match ir.backendParams with
     | .Internal p =>
       Except.ok (["op add MF_resume @counter 3",
         "op sub MF_tmp MF_stack_sz " ++ toString depth,
         "op mul MF_tmp " ++ toString p.popEntrySize ++ " MF_tmp",
         "op add @counter " ++ toString p.popTableStart ++ " MF_tmp"] ++
         (if global ≠ "MF_acc" then ["set " ++ global ++ " MF_acc"] else []))
     | .External cell =>
       Except.ok ["op sub MF_tmp MF_stack_sz " ++ toString depth,
         "read " ++ global ++ " " ++ cell ++ " MF_tmp"])
  | .SetStack global stack function => do
    let fop ← getFn ir function
    let depth ← stackVarDepth fop stack
    (match ir.backendParams with
     | .Internal p =>
       Except.ok ((if global ≠ "MF_acc" then ["set MF_acc " ++ global] else []) ++
         ["op add MF_resume @counter 3",
          "op sub MF_tmp MF_stack_sz " ++ toString depth,
          "op mul MF_tmp " ++ toString p.pokeEntrySize ++ " MF_tmp",
          "op add @counter " ++ toString p.pokeTableStart ++ " MF_tmp"])
     | .External cell =>
       Except.ok ["op sub MF_tmp MF_stack_sz " ++ toString depth,
         "write " ++ global ++ " " ++ cell ++ " MF_tmp"])
  | .Set dest source => .ok ["set " ++ dest ++ " " ++ source]
  | .Math operation dest arg1 arg2 =>
    .ok ["op " ++ operation ++ " " ++ dest ++ " " ++ arg1 ++ " " ++ arg2]
  | .Function name _ => do
    let _ ← getFn ir name
    .ok []
  | .Call op => genCallOp ir op
  | .Return op => genReturnOp ir op

/-- The per-op walk of `codegen::generate`: each op's lines are
appended with the running `instruction_count` advanced by the op's
`code_size` afterwards, so op `i` always generates at the sum of the
code sizes of the ops before it. -/
def generateOps (ir : Ir) : Nat → List IrOp → Except String (List String)
  | _, [] => .ok []
  | ic, op :: rest => do
    let lines ← genOp ir ic op
    let restLines ← generateOps ir (ic + codeSize ir.backend op) rest
    .ok (lines ++ restLines)

/-- `codegen::push`: one push-table entry. -/
def pushEntry (j : Nat) : List String :=
  ["set MF_stack[" ++ toString j ++ "] MF_acc",
   "op add MF_stack_sz MF_stack_sz 1",
   "set @counter MF_resume"]

/-- `codegen::pop`: one pop-table entry. -/
def popEntry (j : Nat) : List String :=
  ["set MF_acc MF_stack[" ++ toString j ++ "]",
   "set @counter MF_resume"]

/-- `codegen::poke`: one poke-table entry. -/
def pokeEntry (j : Nat) : List String :=
  ["set MF_stack[" ++ toString j ++ "] MF_acc",
   "set @counter MF_resume"]

/-- `codegen::gen`: the entries for indices `0..stackSize`. -/
def genTable (entry : Nat → List String) (stackSize : Nat) : List String :=
  (List.range stackSize).flatMap entry

/-- `codegen::generate_internal_stack`: nothing for size 0 or an
external config; otherwise one `end` then the push, pop, and poke
tables. -/
def internalStackLines : StackConfig → List String
  | .Internal 0 => []
  | .Internal size =>
    "end" :: (genTable pushEntry size ++ genTable popEntry size ++
      genTable pokeEntry size)
  | .External _ => []

/-- `codegen::generate` (the target-program output; the annotated
listing is not modelled). -/
def generate (ir : Ir) : Except String (List String) := do
  let out ← generateOps ir 0 ir.ops
  match ir.backend with
  | .Internal => .ok (out ++ internalStackLines ir.stackConfig)
  | .External => .ok out

/-! ## The parser (`src/parser.rs`)

Pass 1 (`preparse_line`) discovers the stack configuration, function
signatures and `let` locals; pass 2 (`parse_line`) lowers each line
into IR ops.  Rust panics (slice indexing, `unwrap`, `unreachable!`,
failed asserts) are modelled as `Except.error`. -/

/-- Rust `str::trim` on a character list. -/
def trimChars (l : List Char) : List Char :=
  ((l.dropWhile Char.isWhitespace).reverse.dropWhile Char.isWhitespace).reverse

/-- Strip leading `';'`s (used on the reversed tail by `cleanLine`). -/
def dropSemisRev : List Char → List Char
  | ';' :: rest => dropSemisRev rest
  | l => l

/-- `parser::clean_line`: trim, then strip trailing semicolons. -/
def cleanLine (line : String) : String :=
  String.mk (dropSemisRev (trimChars line.data).reverse).reverse

/-- Worker for `lexLine` (Rust `str::split_whitespace`). -/
def splitWSAux : List Char → List Char → List (List Char)
  | [], [] => []
  | [], acc => [acc.reverse]
  | c :: cs, acc =>
    if c.isWhitespace then
      (match acc with
       | [] => splitWSAux cs []
       | _ => acc.reverse :: splitWSAux cs [])
    else splitWSAux cs (c :: acc)

/-- `parser::lex_line`. -/
def lexLine (s : String) : List String :=
  (splitWSAux s.data []).map String.mk

/-- Split a token list at every `sep` token (for `parse_arrow`'s
`split(|tok| *tok == "->")`). -/
def splitTokAux (sep : String) : List String → List String → List (List String)
  | [], acc => [acc.reverse]
  | t :: ts, acc =>
    if t = sep then acc.reverse :: splitTokAux sep ts []
    else splitTokAux sep ts (t :: acc)

/-- `parser::parse_arrow`: split `a b -> c d` on the arrow, allowing at
most one arrow. -/
def parseArrow (tokens : List String) :
    Except String (List String × List String) :=
  match splitTokAux "->" tokens [] with
  | [first] =>
    if first = [] then .ok ([], [])
    else if first.head? = some "->" then .ok ([], first.tail)
    else .ok (first, [])
  | [first, second] => .ok (first, second)
  | _ => .error "-> may appear at most once"

/-- The argument loop of `FunctionOp::declare`: every argument must be
a stack variable and is added to the frame in order. -/
def declareArgsAux (fname : String) :
    List String → List String → List (String × Nat) →
    Except String (List String × List (String × Nat))
  | [], args, locals => .ok (args, locals)
  | a :: rest, args, locals => do
    let arg ← stackVarFromStr a
    if lookupAssoc locals arg ≠ none then
      .error ("function " ++ fname ++ " argument duplicate name " ++ arg)
    else
      declareArgsAux fname rest (args ++ [arg]) (locals ++ [(arg, locals.length)])

/-- The return-name loop of `FunctionOp::declare`: duplicates are
rejected, names are kept only for documentation. -/
def declareReturnsAux (fname : String) :
    List String → List Term → Except String (List Term)
  | [], acc => .ok acc
  | r :: rest, acc => do
    let ret ← termFromStr r
    if acc.contains ret then
      .error ("function " ++ fname ++ " return value duplicate name " ++ r)
    else declareReturnsAux fname rest (acc ++ [ret])

/-- `FunctionOp::declare`. -/
def FunctionOp.declare (name : String) (argNames returnNames : List String) :
    Except String FunctionOp := do
  let (args, locals) ← declareArgsAux name argNames [] []
  let returns ← declareReturnsAux name returnNames []
  .ok ⟨name, args, returns, locals, none⟩

/-- The state threaded through pass 1: the functions discovered so
far, the stack configuration if one was declared, and the nesting
stack of `Option<FunctionName>`. -/
structure PreState where
  functions : List (String × FunctionOp)
  stackConfig : Option StackConfig
  fnStack : List (Option String)
deriving Repr

/-- `ParserContext::preparse_stack_config`. -/
def preparseStackConfig (tok : List String) (st : PreState) :
    Except String PreState :=
  match tok with
  | [kind, value] =>
    if kind ≠ "size" ∧ kind ≠ "cell" then
      .error "form is stack_config [ size <stack_size> | cell <cell_name> ]"
    else if st.stackConfig ≠ none then
      .error "stack config set for second time here"
    else if kind = "size" then
      match parseUsize value with
      | some n => .ok { st with stackConfig := some (.Internal n) }
      | none => .error "stack size must be a non-negative integer"
    else .ok { st with stackConfig := some (.External value) }
  | _ => .error "form is stack_config [ size <stack_size> | cell <cell_name> ]"

/-- `ParserContext::preparse_function`. -/
def preparseFunction (tok : List String) (st : PreState) :
    Except String PreState :=
  if tok.length < 2 ∨ tok.getLast? ≠ some "\x7b" then
    .error "form is fn name [arg1 [arg2...]] [-> [return1 [return2...]]] \x7b"
  else
    match tok with
    | [] => .error "panic: unreachable"
    | name :: rest => do
      let (args, returns) ← parseArrow rest.dropLast
      let func ← FunctionOp.declare name args returns
      if lookupAssoc st.functions name ≠ none then
        .error ("function " ++ name ++ " is defined a second time here")
      else
        .ok { st with
              functions := st.functions ++ [(name, func)],
              fnStack := some name :: st.fnStack }

/-- The innermost enclosing function on the pass-1 nesting stack. -/
def findPreparseFn : List (Option String) → Option String
  | [] => none
  | none :: rest => findPreparseFn rest
  | some f :: _ => some f

/-- `ParserContext::preparse_let`. -/
def preparseLet (tok : List String) (st : PreState) :
    Except String PreState :=
  match tok with
  | [name] => do
    let fname ← (match findPreparseFn st.fnStack with
      | some f => Except.ok f
      | none => Except.error "let may only be used within a function")
    let sv ← stackVarFromStr name
    let f ← (match lookupAssoc st.functions fname with
      | some f => Except.ok f
      | none => Except.error "panic: preparse function missing")
    if lookupAssoc f.locals sv ≠ none then
      .error (sv ++ " is defined a second time here")
    else
      let f' := { f with locals := f.locals ++ [(sv, f.locals.length)] }
      .ok { st with functions := updateAssoc st.functions fname f' }
  | _ => .error "form is let *stack_var_name"

/-- `ParserContext::preparse_line`: pass 1 only looks at `fn`, `let`,
`stack_config` and brace nesting. -/
def preparseLine (st : PreState) (tok : List String) :
    Except String PreState :=
  match tok.head? with
  | some "fn" => preparseFunction tok.tail st
  | some "let" => preparseLet tok.tail st
  | some "stack_config" => preparseStackConfig tok.tail st
  | some "\x7d" =>
    if tok.getLast? = some "\x7b" then .ok st
    else
      (match st.fnStack with
       | [] => .error "missing opening \x7b"
       | _ :: rest => .ok { st with fnStack := rest })
  | _ =>
    if tok.getLast? = some "\x7b" then
      .ok { st with fnStack := none :: st.fnStack }
    else .ok st

/-- `parser::ParserContext` (pass-2 state).  `scopeStack` holds indices
into `ops`, most recent first. -/
structure ParserContext where
  ops : List IrOp
  instructionCount : Nat
  backend : Backend
  scopeStack : List Nat
  functions : List (String × FunctionOp)
  labels : List (String × Nat)
  hasStack : Bool
deriving Repr

/-- `ParserContext::require_stack`. -/
def requireStack (ctx : ParserContext) : Except String Unit :=
  if ctx.hasStack then .ok ()
  else .error "This function requires that a stack be configured. Use, e.g., stack_config cell bank1 for an external memory bank or stack_config size <size> for an internal jump-table stack."

/-- `ParserContext::find_enclosing_function_internal`. -/
def findEnclosingFunctionIn (scopeStack : List Nat) (ops : List IrOp) :
    Except String (Option String) :=
  match scopeStack with
  | [] => .ok none
  | idx :: rest =>
    match ops[idx]? with
    | none => .error "panic: scope index out of bounds"
    | some op =>
      match op with
      | .InfiniteLoop _ _ => findEnclosingFunctionIn rest ops
      | .DoWhile _ _ => findEnclosingFunctionIn rest ops
      | .While _ _ _ _ => findEnclosingFunctionIn rest ops
      | .If _ _ => findEnclosingFunctionIn rest ops
      | .Else _ => findEnclosingFunctionIn rest ops
      | .Function f _ => .ok (some f)
      | _ => .error "Internal error: unexpected op on scope stack"

/-- `ParserContext::find_enclosing_function`. -/
def findEnclosingFunction (ctx : ParserContext) :
    Except String (Option String) :=
  findEnclosingFunctionIn ctx.scopeStack ctx.ops

/-- `ParserContext::find_enclosing_loop_index`. -/
def findEnclosingLoopIndex (ctx : ParserContext) :
    Except String (Option Nat) :=
  go ctx.scopeStack
where
  go : List Nat → Except String (Option Nat)
    | [] => .ok none
    | idx :: rest =>
      match ctx.ops[idx]? with
      | none => .error "panic: scope index out of bounds"
      | some op =>
        match op with
        | .InfiniteLoop _ _ => .ok (some idx)
        | .DoWhile _ _ => .ok (some idx)
        | .While _ _ _ _ => .ok (some idx)
        | .If _ _ => go rest
        | .Else _ => go rest
        | .Function _ _ => .ok none
        | _ => .error "Internal error: unexpected op on scope stack"

/-- `ir::intermediate_representation::ir_read_one_arg`. -/
def irReadOneArg (arg : Term) (function : Option String) :
    Except String (List IrOp × String) :=
  match arg, function with
  | .Mindustry a, _ => .ok ([], a)
  | .StackVar s, some f => .ok ([.GetStack "MF_acc" s f], "MF_acc")
  | .StackVar _, none =>
    .error "Stack variables (start with *) may not be used outside a fuction"

/-- `ir::intermediate_representation::ir_read_two_args`. -/
def irReadTwoArgs (arg1 arg2 : Term) (function : Option String) :
    Except String (List IrOp × String × String) :=
  if arg1 = arg2 then do
    let (seq, a) ← irReadOneArg arg1 function
    .ok (seq, a, a)
  else
    match arg1, arg2, function with
    | .Mindustry a1, .Mindustry a2, _ => .ok ([], a1, a2)
    | .StackVar s1, .Mindustry a2, some f =>
      .ok ([.GetStack "MF_acc" s1 f], "MF_acc", a2)
    | .Mindustry a1, .StackVar s2, some f =>
      .ok ([.GetStack "MF_acc" s2 f], a1, "MF_acc")
    | .StackVar s1, .StackVar s2, some f =>
      .ok ([.GetStack "MF_stack_tmp" s1 f, .GetStack "MF_acc" s2 f],
        "MF_stack_tmp", "MF_acc")
    | _, _, _ =>
      .error "Stack variables (start with *) may not be used outside a fuction"

/-- `ir::intermediate_representation::ir_write_one`. -/
def irWriteOne (dest : Term) (function : Option String) :
    Except String (String × List IrOp) :=
  match dest, function with
  | .Mindustry d, _ => .ok (d, [])
  | .StackVar s, some f => .ok ("MF_acc", [.SetStack "MF_acc" s f])
  | .StackVar _, none =>
    .error "Stack variables (start with *) may not be used outside a fuction"

/-- `ir::intermediate_representation::ir_copy_arg`. -/
def irCopyArg (dest source : Term) (function : Option String) :
    Except String (List IrOp) :=
  match source, dest, function with
  | .Mindustry src, .Mindustry d, _ => .ok [.Set d src]
  | .StackVar ss, .Mindustry d, some f => .ok [.GetStack d ss f]
  | .Mindustry src, .StackVar sd, some f => .ok [.SetStack src sd f]
  | .StackVar ss, .StackVar sd, some f =>
    .ok [.GetStack "MF_acc" ss f, .SetStack "MF_acc" sd f]
  | _, _, _ =>
    .error "Stack variables (start with *) may not be used outside a fuction"

/-- `ir::intermediate_representation::ir_read_two_write_one`. -/
def irReadTwoWriteOne (dest arg1 arg2 : Term) (function : Option String) :
    Except String (List IrOp × String × String × String × List IrOp) := do
  let (read, a1, a2) ←
    (if arg1 = arg2 then do
      let (r, a) ← irReadOneArg arg1 function
      Except.ok (r, a, a)
    else irReadTwoArgs arg1 arg2 function)
  let (d, write) ← irWriteOne dest function
  .ok (read, d, a1, a2, write)

/-- `parser::parse_condition` (the free function): `always`/`never`
become the sentinels; otherwise exactly three tokens, with stack-var
operands materialised through `GetStack` ops. -/
def parseCondition (function : Option String) (tok : List String) :
    Except String (List IrOp × Condition) :=
  match tok.head? with
  | none => .error "panic: index out of bounds in parse_condition"
  | some t0 =>
    if t0 = "always" then .ok ([], conditionAlways)
    else if t0 = "never" then .ok ([], conditionNever)
    else
      match tok with
      | [c, a1, a2] => do
        let arg1 ← termFromStr a1
        let arg2 ← termFromStr a2
        let (seq, m1, m2) ← irReadTwoArgs arg1 arg2 function
        if c = "" then .error "Invalid condition: <empty>"
        else .ok (seq, ⟨c, m1, m2⟩)
      | _ => .error "condition form is cond a b, always, or never"

/-- `MindustryCommand::try_from`: no token may start with `*`. -/
def mindustryCommandFrom (tokens : List String) :
    Except String (List String) :=
  if tokens.any (fun t => stripPre ['*'] t.data ≠ none) then
    .error "Mindustry commands and their args may not start with *"
  else .ok tokens

/-- The result type of one pass-2 line: the IR ops to append and the
updated context. -/
abbrev LineResult := List IrOp × ParserContext

/-- `ParserContext::parse_callproc`. -/
def parseCallprocLine (ctx : ParserContext) (tok : List String) :
    Except String LineResult := do
  let _ ← requireStack ctx
  match tok with
  | [target] => .ok ([.CallProc target], ctx)
  | _ => .error "form is callproc label"

/-- `ParserContext::parse_ret`. -/
def parseRetLine (ctx : ParserContext) (tok : List String) :
    Except String LineResult := do
  let _ ← requireStack ctx
  if tok ≠ [] then .error "form is ret"
  else .ok ([.RetProc], ctx)

/-- `ParserContext::parse_label`: record the label at the current
instruction count, rejecting duplicates. -/
def parseLabelLine (ctx : ParserContext) (name : String) :
    Except String LineResult :=
  if lookupAssoc ctx.labels name ≠ none then
    .error ("label " ++ name ++ " is defined a second time here")
  else
    .ok ([.Label name],
      { ctx with labels := ctx.labels ++ [(name, ctx.instructionCount)] })

/-- `ParserContext::parse_push`. -/
def parsePushLine (ctx : ParserContext) (tok : List String) :
    Except String LineResult := do
  let _ ← requireStack ctx
  if tok ≠ [] then .error "form is push"
  else .ok ([.Push], ctx)

/-- `ParserContext::parse_pop`. -/
def parsePopLine (ctx : ParserContext) (tok : List String) :
    Except String LineResult := do
  let _ ← requireStack ctx
  if tok ≠ [] then .error "form is pop"
  else .ok ([.Pop], ctx)

/-- `ParserContext::parse_peek` (depth defaults to `0`). -/
def parsePeekLine (ctx : ParserContext) (tok : List String) :
    Except String LineResult := do
  let _ ← requireStack ctx
  let depth ← (match tok with
    | [] => Except.ok "0"
    | [d] => mindustryTermFromStr d
    | _ => Except.error "form is peek [depth]")
  .ok ([.Peek depth], ctx)

/-- `ParserContext::parse_poke`. -/
def parsePokeLine (ctx : ParserContext) (tok : List String) :
    Except String LineResult := do
  let _ ← requireStack ctx
  let depth ← (match tok with
    | [] => Except.ok "0"
    | [d] => mindustryTermFromStr d
    | _ => Except.error "form is poke [depth]")
  .ok ([.Poke depth], ctx)

/-- `ParserContext::parse_jump`. -/
def parseJumpLine (ctx : ParserContext) (tok : List String) :
    Except String LineResult :=
  match tok with
  | target :: c0 :: rest => do
    let f ← findEnclosingFunction ctx
    let (seq, condition) ← parseCondition f (c0 :: rest)
    .ok (seq ++ [.Jump target condition], ctx)
  | _ => .error "form is jump label condition"

/-- `ParserContext::parse_while`: the condition sequence is saved for
the loop end; the header op jumps to it. -/
def parseWhileLine (ctx : ParserContext) (tok : List String) :
    Except String LineResult :=
  if tok.getLast? ≠ some "\x7b" then .error "form is while condition \x7b"
  else do
    let f ← findEnclosingFunction ctx
    let (endSeq, condition) ← parseCondition f tok.dropLast
    .ok ([.While (ctx.instructionCount + 1) endSeq condition none],
      { ctx with scopeStack := ctx.ops.length :: ctx.scopeStack })

/-- `ParserContext::parse_do`. -/
def parseDoLine (ctx : ParserContext) (tok : List String) :
    Except String LineResult :=
  if tok ≠ ["\x7b"] then .error "form is do \x7b"
  else
    .ok ([.DoWhile ctx.instructionCount none],
      { ctx with scopeStack := ctx.ops.length :: ctx.scopeStack })

/-- `ParserContext::parse_loop`. -/
def parseLoopLine (ctx : ParserContext) (tok : List String) :
    Except String LineResult :=
  if tok ≠ ["\x7b"] then .error "form is loop \x7b"
  else
    .ok ([.InfiniteLoop ctx.instructionCount none],
      { ctx with scopeStack := ctx.ops.length :: ctx.scopeStack })

/-- `ParserContext::parse_break`. -/
def parseBreakLine (ctx : ParserContext) (tok : List String) :
    Except String LineResult := do
  if tok ≠ [] then .error "form is break"
  else do
    let idx ← findEnclosingLoopIndex ctx
    match idx with
    | some index => .ok ([.Break index], ctx)
    | none => .error "break not valid outside loop"

/-- `ParserContext::parse_continue`. -/
def parseContinueLine (ctx : ParserContext) (tok : List String) :
    Except String LineResult := do
  if tok ≠ [] then .error "form is continue"
  else do
    let idx ← findEnclosingLoopIndex ctx
    match idx with
    | some index => .ok ([.Continue index], ctx)
    | none => .error "continue not valid outside loop"

/-- `ParserContext::parse_if`. -/
def parseIfLine (ctx : ParserContext) (tok : List String) :
    Except String LineResult :=
  if tok.getLast? ≠ some "\x7b" then .error "form is if condition \x7b"
  else do
    let f ← findEnclosingFunction ctx
    let (seq, condition) ← parseCondition f tok.dropLast
    .ok (seq ++ [.If condition none],
      { ctx with scopeStack := (seq.length + ctx.ops.length) :: ctx.scopeStack })

/-- `ParserContext::parse_function` (pass 2): record the function's
address (exactly once) and open its scope.  The emitted
`IrOp.Function` stores `FunctionOp::code_size`, which is zero. -/
def parseFunctionLine (ctx : ParserContext) (tok : List String) :
    Except String LineResult := do
  let _ ← requireStack ctx
  match tok.head? with
  | none => .error "panic: fn line with no name"
  | some name =>
    match lookupAssoc ctx.functions name with
    | none => .error "panic: function missing from preparse map"
    | some f =>
      if f.address ≠ none then .error "assert: function address set twice"
      else
        .ok ([.Function name 0],
          { ctx with
            functions := updateAssoc ctx.functions name
              { f with address := some ctx.instructionCount },
            scopeStack := ctx.ops.length :: ctx.scopeStack })

/-- `ParserContext::parse_return`. -/
def parseReturnLine (ctx : ParserContext) (tok : List String) :
    Except String LineResult := do
  let _ ← requireStack ctx
  let fname ← findEnclosingFunction ctx
  match fname with
  | none => .error "return may not be used outside a function"
  | some fname =>
    match lookupAssoc ctx.functions fname with
    | none => .error "panic: enclosing function missing"
    | some f => do
      let rop ← ReturnOp.new f tok ctx.backend
      .ok ([.Return rop], ctx)

/-- `ParserContext::parse_call_variable`: a stack-var argument or
return binding requires the call site to be inside a function that
declares it. -/
def parseCallVariable (ctx : ParserContext) (name : String)
    (callSiteFunction : Option String) : Except String Term := do
  let _ ← requireStack ctx
  let arg ← termFromStr name
  match callSiteFunction, arg with
  | some f, .StackVar sv =>
    (match lookupAssoc ctx.functions f with
     | none => Except.error "panic: call-site function missing"
     | some fop =>
       match lookupAssoc fop.locals sv with
       | some _ => Except.ok arg
       | none =>
         Except.error ("function " ++ f ++ " does not have stack variable " ++ sv))
  | none, .StackVar sv =>
    .error (sv ++ " is a stack variable and may only be used inside a function")
  | _, _ => .ok arg

/-- The return-binding loop of `parse_call` (duplicates rejected). -/
def collectCallReturns (ctx : ParserContext) (csf : Option String) :
    List String → List Term → Except String (List Term)
  | [], acc => .ok acc
  | r :: rest, acc => do
    let ret ← parseCallVariable ctx r csf
    if acc.contains ret then
      .error ("return binding " ++ r ++ " is duplicated")
    else collectCallReturns ctx csf rest (acc ++ [ret])

/-- `ParserContext::parse_call`. -/
def parseCallLine (ctx : ParserContext) (tok : List String) :
    Except String LineResult := do
  let _ ← requireStack ctx
  match tok with
  | [] => .error "form is call name [args] [-> return_values]"
  | name :: rest => do
    let (argNames, returnNames) ← parseArrow rest
    let csf ← findEnclosingFunction ctx
    let args ← argNames.mapM (fun a => parseCallVariable ctx a csf)
    let returns ← collectCallReturns ctx csf returnNames []
    match lookupAssoc ctx.functions name with
    | none => .error ("function definition for " ++ name ++ " not found")
    | some func =>
      if func.args.length ≠ args.length then
        .error ("function " ++ name ++ " takes " ++ toString func.args.length ++
          " args but called with " ++ toString args.length ++ " values")
      else if func.returns.length ≠ returns.length then
        .error ("function " ++ name ++ " returns " ++
          toString func.returns.length ++ " values but being bound to " ++
          toString returns.length ++ " bindings")
      else
        .ok ([.Call (CallOp.new args returns func.locals.length name csf
          ctx.backend)], ctx)

/-- `ParserContext::parse_let` (pass 2; the binding itself was handled
in pass 1, so this only emits the zero-width documentation op). -/
def parseLetLine (ctx : ParserContext) (tok : List String) :
    Except String LineResult := do
  let _ ← requireStack ctx
  match tok.head? with
  | none => .error "panic: let line with no name"
  | some name => do
    let fname ← findEnclosingFunction ctx
    match fname with
    | none => .error "let may not be used outside a function"
    | some fname =>
      match lookupAssoc ctx.functions fname with
      | none => .error "panic: enclosing function missing"
      | some f => do
        let sv ← stackVarFromStr name
        .ok ([.Let sv f.locals.length], ctx)

/-- `ParserContext::parse_op`. -/
def parseOpLine (ctx : ParserContext) (tok : List String) :
    Except String LineResult :=
  match tok with
  | operation :: d :: a1 :: a2 :: _ => do
    let dest ← termFromStr d
    let arg1 ← termFromStr a1
    let arg2 ← termFromStr a2
    let f ← findEnclosingFunction ctx
    let (seq, dm, m1, m2, write) ← irReadTwoWriteOne dest arg1 arg2 f
    .ok (seq ++ [.Math operation dm m1 m2] ++ write, ctx)
  | _ => .error "panic: op line with fewer than four arguments"

/-- Split at the first whitespace character (Rust
`str::split_once(char::is_whitespace)`). -/
def splitOnceWS : List Char → Option (List Char × List Char)
  | [] => none
  | c :: cs =>
    if c.isWhitespace then some ([], cs)
    else (splitOnceWS cs).map (fun p => (c :: p.1, p.2))

/-- `ParserContext::parse_set`: the source may contain whitespace (it
is everything after the first whitespace following the destination). -/
def parseSetLine (ctx : ParserContext) (line : String) :
    Except String LineResult :=
  match splitOnceWS (trimChars ((trimChars line.data).drop 3)) with
  | some (destCs, srcCs) => do
    let dest ← termFromStr (String.mk destCs)
    let source ← termFromStr (String.mk srcCs)
    let f ← findEnclosingFunction ctx
    let seq ← irCopyArg dest source f
    .ok (seq, ctx)
  | none => .error "set form is set a b"

/-- `ParserContext::parse_print`. -/
def parsePrintLine (ctx : ParserContext) (line : String) :
    Except String LineResult := do
  let value ← termFromStr (String.mk (trimChars ((trimChars line.data).drop 5)))
  let f ← findEnclosingFunction ctx
  let (seq, v) ← irReadOneArg value f
  let cmd ← mindustryCommandFrom ["print " ++ v]
  .ok (seq ++ [.MindustryCommand cmd], ctx)

/-- `ParserContext::parse_mindustry_command`: pass the tokens through
verbatim (no `*`-prefixed token allowed). -/
def parseMindustryCommandLine (ctx : ParserContext) (tok : List String) :
    Except String LineResult := do
  let cmd ← mindustryCommandFrom tok
  .ok ([.MindustryCommand cmd], ctx)

/-- `ParserContext::handle_single_closing_brace`: resolve the opening
op's forward reference (asserting it was unresolved), possibly
emitting the loop-end sequence. -/
def handleSingleClosingBrace (ctx : ParserContext) (idx : Nat) :
    Except String LineResult :=
  match ctx.ops[idx]? with
  | none => .error "panic: scope index out of bounds"
  | some op =>
    match op with
    | .Else endAddr =>
      if endAddr ≠ none then .error "assert: else end set twice"
      else
        let newOps := ctx.ops.set idx (.Else (some ctx.instructionCount))
        .ok ([], { ctx with ops := newOps })
    | .InfiniteLoop bodyStart endAddr =>
      if endAddr ≠ none then .error "assert: infinite-loop end set twice"
      else
        let newOp := IrOp.InfiniteLoop bodyStart (some (ctx.instructionCount + 1))
        .ok ([.LoopEnd bodyStart conditionAlways],
          { ctx with ops := ctx.ops.set idx newOp })
    | .Function _ _ => .ok ([], ctx)
    | .If condition endAddr =>
      if endAddr ≠ none then .error "assert: if end set twice"
      else
        let newOps := ctx.ops.set idx (.If condition (some ctx.instructionCount))
        .ok ([], { ctx with ops := newOps })
    | .While bodyStart endSeq condition forward =>
      let endSeq' := endSeq ++ [.LoopEnd bodyStart condition]
      let condEnd := ctx.instructionCount + codeSizeSeq ctx.backend endSeq'
      if forward ≠ none then .error "assert: while forward set twice"
      else
        let newOp := IrOp.While bodyStart endSeq' condition
          (some (ctx.instructionCount, condEnd))
        .ok (endSeq', { ctx with ops := ctx.ops.set idx newOp })
    | _ => .error "panic: unexpected op on scope stack"

/-- `ParserContext::handle_closing_brace_more` (`} else {` and
`} while COND`). -/
def handleClosingBraceMore (ctx : ParserContext) (tok : List String)
    (idx : Nat) : Except String LineResult := do
  let enclosing ← findEnclosingFunctionIn ctx.scopeStack ctx.ops
  if tok = ["else", "\x7b"] then
    match ctx.ops[idx]? with
    | some (.If condition endAddr) =>
      if endAddr ≠ none then .error "assert: if end set twice"
      else
        let newOp := IrOp.If condition
          (some (ctx.instructionCount + codeSize ctx.backend (.Else none)))
        .ok ([.Else none],
          { ctx with
            ops := ctx.ops.set idx newOp,
            scopeStack := ctx.ops.length :: ctx.scopeStack })
    | some _ => .error "else does not match if statement structurally"
    | none => .error "panic: scope index out of bounds"
  else if tok.head? = some "while" then
    match ctx.ops[idx]? with
    | some (.DoWhile bodyStart forward) => do
      let (endSeq, condition) ← parseCondition enclosing tok.tail
      let seq' := endSeq ++ [.LoopEnd bodyStart condition]
      let endA := ctx.instructionCount + codeSizeSeq ctx.backend seq'
      if forward ≠ none then .error "assert: do-while forward set twice"
      else
        let newOp := IrOp.DoWhile bodyStart (some (ctx.instructionCount, endA))
        .ok (seq', { ctx with ops := ctx.ops.set idx newOp })
    | some _ => .error "\x7d while construct is only valid as part of a do-while loop"
    | none => .error "panic: scope index out of bounds"
  else .error "unknown form of \x7d"

/-- `ParserContext::parse_closing_brace`. -/
def parseClosingBrace (ctx : ParserContext) (tok : List String) :
    Except String LineResult :=
  match ctx.scopeStack with
  | [] => .error "scope stack is empty"
  | openIndex :: rest =>
    let ctx := { ctx with scopeStack := rest }
    if tok = [] then handleSingleClosingBrace ctx openIndex
    else handleClosingBraceMore ctx tok openIndex

/-- `ParserContext::parse_line`: the pass-2 dispatch on the first
token, in source order. -/
def parseLine (ctx : ParserContext) (line : String) (tok : List String) :
    Except String LineResult :=
  match tok.head? with
  | none => .ok ([], ctx)
  | some t0 =>
    if t0 = "stack_config" then .ok ([], ctx)
    else if t0 = "callproc" then parseCallprocLine ctx tok.tail
    else if t0 = "ret" then parseRetLine ctx tok.tail
    else if t0.data.getLast? = some ':' ∧ tok.length = 1 then
      parseLabelLine ctx (String.mk t0.data.dropLast)
    else if stripPre ['/', '/'] t0.data ≠ none then .ok ([], ctx)
    else if t0 = "push" then parsePushLine ctx tok.tail
    else if t0 = "poke" then parsePokeLine ctx tok.tail
    else if t0 = "peek" then parsePeekLine ctx tok.tail
    else if t0 = "pop" then parsePopLine ctx tok.tail
    else if t0 = "jump" then parseJumpLine ctx tok.tail
    else if t0 = "do" then parseDoLine ctx tok.tail
    else if t0 = "while" then parseWhileLine ctx tok.tail
    else if t0 = "loop" then parseLoopLine ctx tok.tail
    else if t0 = "break" then parseBreakLine ctx tok.tail
    else if t0 = "continue" then parseContinueLine ctx tok.tail
    else if t0 = "if" then parseIfLine ctx tok.tail
    else if t0 = "fn" then parseFunctionLine ctx tok.tail
    else if t0 = "return" then parseReturnLine ctx tok.tail
    else if t0 = "call" then parseCallLine ctx tok.tail
    else if t0 = "let" then parseLetLine ctx tok.tail
    else if t0 = "\x7d" then parseClosingBrace ctx tok.tail
    else if t0 = "op" then parseOpLine ctx tok.tail
    else if t0 = "set" then parseSetLine ctx line
    else if t0 = "print" then parsePrintLine ctx line
    else parseMindustryCommandLine ctx tok

/-- The main pass-2 loop's per-op bookkeeping: append each op,
advancing `instruction_count` by its `code_size`. -/
def appendOps (ctx : ParserContext) : List IrOp → ParserContext
  | [] => ctx
  | op :: rest =>
    appendOps
      { ctx with
        instructionCount := ctx.instructionCount + codeSize ctx.backend op,
        ops := ctx.ops ++ [op] }
      rest

/-- Whether a stack is available (`parser::parse`'s `(has_stack, _)`
computation): `Internal(0)` disables the stack. -/
def hasStackFor : StackConfig → Bool
  | .Internal 0 => false
  | .Internal _ => true
  | .External _ => true

/-- The backend chosen for a stack configuration. -/
def backendFor : StackConfig → Backend
  | .Internal _ => .Internal
  | .External _ => .External

/-- The stack-pointer initialisation op
(`SetOp::new(MindustryTerm::stack_sz(), MindustryTerm::zero())`). -/
def stackInitOp : IrOp := .Set "MF_stack_sz" "0"

/-- `parser::parse`: pass 1, the stack-config default
(`Internal(0)`), the optional stack-pointer initialisation, pass 2,
and the backend-parameter computation. -/
def parse (text : String) : Except String Ir := do
  let pre ← (rustLines text).foldlM
    (fun st line => preparseLine st (lexLine (cleanLine line)))
    (⟨[], none, []⟩ : PreState)
  let stackConfig := pre.stackConfig.getD (.Internal 0)
  let hasStack := hasStackFor stackConfig
  let backend := backendFor stackConfig
  let ctx0 : ParserContext :=
    { ops := [], instructionCount := 0, backend := backend,
      scopeStack := [], functions := pre.functions, labels := [],
      hasStack := hasStack }
  let ctx0 := if hasStack then appendOps ctx0 [stackInitOp] else ctx0
  let ctx ← (rustLines text).foldlM
    (fun ctx line => do
      let clean := cleanLine line
      let (seq, ctx') ← parseLine ctx clean (lexLine clean)
      Except.ok (appendOps ctx' seq))
    ctx0
  let backendParams := match stackConfig with
    | .Internal n => BackendParams.Internal
        (computeInternalParams ctx.instructionCount n)
    | .External cell => BackendParams.External cell
  .ok ⟨ctx.ops, stackConfig, ctx.labels, ctx.functions, backend, backendParams⟩

/-- Compile a source text to the target program
(`IntermediateRepresentation::parse` followed by `generate`). -/
def compile (text : String) : Except String (List String) := do
  let ir ← parse text
  generate ir

/-- Whether an instruction is a `printflush`. -/
def isPrintFlush : Instruction → Bool
  | .PrintFlush _ => true
  | _ => false

/-- The emulator's program-counter invariant: either the program is
empty (and `run` returns immediately) or `@counter` denotes a valid
instruction index. -/
abbrev counterOk (e : Emulator) : Prop :=
  e.instructions = [] ∨ counterValOf e < e.instructions.length

/-- Agreement between the backend tag and the backend parameters (as
`parser::parse` always arranges: both come from the same
`stack_config`). -/
def paramsMatch (ir : Ir) : Prop :=
  match ir.backend, ir.backendParams with
  | .Internal, .Internal _ => True
  | .External, .External _ => True
  | _, _ => False

/-- Consistency of the sizes stored inside computed-size ops with
their constructors: a `Call` op's stored sizes are the ones
`CallOp::new` computes for its callee (whose frame contains at least
its arguments), a `Return` op's stored size is the one
`ReturnOp::new` computes, and a `Function` op stores
`FunctionOp::code_size`, which is 0.  The parser establishes this for
every op it builds. -/
def sizeOk (ir : Ir) : IrOp → Prop
  | .Call op =>
    ∃ f, lookupAssoc ir.functions op.targetFunction = some f ∧
      f.args.length ≤ f.locals.length ∧
      op.beforeCallSize = callBeforeSize ir.backend op.args f.locals.length ∧
      op.totalSize =
        op.beforeCallSize + (op.returns.map (callRetSize ir.backend)).sum
  | .Return op =>
    op.size = (op.values.map (returnValueSize ir.backend)).sum + 1 +
      (match ir.backend with | .Internal => 4 | .External => 1)
  | .Function _ size => size = 0
  | _ => True

/-- The first tokens whose pass-2 parsers begin with
`require_stack`: the stack-requiring constructs. -/
def stackTok (t : String) : Bool :=
  t == "push" || t == "pop" || t == "peek" || t == "poke" ||
  t == "callproc" || t == "ret" || t == "fn" || t == "call" ||
  t == "return" || t == "let"

/-- Whether a source line's first token is a stack-requiring
construct. -/
def lineStackTok (line : String) : Bool :=
  match (lexLine (cleanLine line)).head? with
  | some t => stackTok t
  | none => false

/-!
# Theorems

Everything below settles the claims; shared helper lemmas come first.
-/

theorem paramsMatch_internal {ir : Ir} {p : InternalParams}
    (hpm : paramsMatch ir) (hbp : ir.backendParams = .Internal p) :
    ir.backend = .Internal := by
  cases hb : ir.backend
  · rfl
  · exfalso
    unfold paramsMatch at hpm
    rw [hb, hbp] at hpm
    exact hpm

theorem paramsMatch_external {ir : Ir} {c : String}
    (hpm : paramsMatch ir) (hbp : ir.backendParams = .External c) :
    ir.backend = .External := by
  cases hb : ir.backend
  · exfalso
    unfold paramsMatch at hpm
    rw [hb, hbp] at hpm
    exact hpm
  · rfl

theorem lookupVar_insertVar_self (m : Varmap) (k : String) (v : Nat) :
    lookupVar (insertVar m k v) k = some v := by
  simp [insertVar, lookupVar]

theorem stepExec_instructions (e : Emulator) (ip : Nat) (i : Instruction) :
    (stepExec e ip i).instructions = e.instructions := rfl

theorem stepExec_watches (e : Emulator) (ip : Nat) (i : Instruction) :
    (stepExec e ip i).watches = e.watches := rfl

theorem stepExec_breakpoints (e : Emulator) (ip : Nat) (i : Instruction) :
    (stepExec e ip i).breakpoints = e.breakpoints := rfl

theorem execute_pause (c : Option Cell) (v : Varmap) (p : List String) :
    execute .Pause c v p = (c, v, p) := rfl

theorem counterValOf_stepExec_pause (e : Emulator) (ip : Nat) :
    counterValOf (stepExec e ip .Pause) = ip + 1 := by
  simp [stepExec, execute, counterValOf, lookupVar_insertVar_self]

theorem counterValOf_withCounterZero (e : Emulator) :
    counterValOf (withCounterZero e) = 0 := by
  simp [withCounterZero, counterValOf, lookupVar_insertVar_self]

theorem withCounterZero_instructions (e : Emulator) :
    (withCounterZero e).instructions = e.instructions := rfl

theorem stepOut_not_printFlush (e : Emulator) (out : List String) (ip : Nat)
    (i : Instruction) (h : isPrintFlush i = false) :
    stepOut e out ip i =
      out ++ [traceLine ip
        (String.join (e.watches.map (watchFormat
          (insertVar e.vars counterName (ip + 1))))) i] := by
  cases i <;> simp_all [stepOut, isPrintFlush]

/-- One-step unfolding of `runLoop` in the executing case (within the
step budget, not stopped at a breakpoint, instruction in bounds). -/
theorem runLoop_step (maxSteps fuel : Nat) (firstStep : Bool)
    (e : Emulator) (out : List String) (ip : Nat) (instr : Instruction)
    (hlen : out.length < maxSteps)
    (hbp : firstStep = true ∨ ip ∉ e.breakpoints)
    (hip : counterValOf e = ip)
    (hinstr : e.instructions[ip]? = some instr) :
    runLoop maxSteps (fuel + 1) firstStep e out =
      (if instr = .End ∨
          e.instructions.length ≤ counterValOf (stepExec e ip instr) then
        .ok (withCounterZero (stepExec e ip instr)) (stepOut e out ip instr)
      else if instr = .Pause then
        .ok (stepExec e ip instr) (stepOut e out ip instr)
      else
        runLoop maxSteps fuel false (stepExec e ip instr)
          (stepOut e out ip instr)) := by
  subst hip
  have hbp' : ¬(firstStep = false ∧ counterValOf e ∈ e.breakpoints) := by
    rcases hbp with h | h <;> simp [h]
  simp only [runLoop, if_pos hlen, if_neg hbp', hinstr]

/-- C3 counterexample: with `x = 5` and `y` unset (so exactly one
operand of the jump resolves to null), a `notEqual` jump IS taken —
`@counter` is overwritten with the jump destination 0 instead of
keeping its value 3 — refuting the claim that with one null operand
all four comparisons evaluate to false and the jump is not taken. -/
theorem claim_C3_counterexample :
    resolve [("x", 5), ("@counter", 3)] "y" = none ∧
    resolve [("x", 5), ("@counter", 3)] "x" = some 5 ∧
    execute (.Jump .Ne 0 "x" "y") none [("x", 5), ("@counter", 3)] [] =
      (none, insertVar [("x", 5), ("@counter", 3)] counterName 0, []) ∧
    lookupVar (insertVar [("x", 5), ("@counter", 3)] counterName 0)
      counterName = some 0 := by
  decide

/-- C3 (amended): the emulator's jump conditions compare the two
`resolve` results with Rust's `Option<usize>` operations, so: with
both operands null, `equal` is true and `notEqual` is false (and
`lessThan`/`greaterThan` are false); with exactly one operand null,
`equal` is false, `notEqual` is TRUE, `lessThan` is true exactly when
the left operand is the null one, and `greaterThan` is true exactly
when the right operand is the null one (because `None` orders below
every `Some`).  The jump instruction overwrites `@counter` with the
destination exactly when the comparison holds. -/
theorem claim_C3_amended :
    condMet .Eq none none = true ∧
    condMet .Ne none none = false ∧
    condMet .Lt none none = false ∧
    condMet .Gt none none = false ∧
    (∀ v : Nat,
      condMet .Eq (some v) none = false ∧ condMet .Eq none (some v) = false ∧
      condMet .Ne (some v) none = true ∧ condMet .Ne none (some v) = true ∧
      condMet .Lt none (some v) = true ∧ condMet .Lt (some v) none = false ∧
      condMet .Gt (some v) none = true ∧ condMet .Gt none (some v) = false) ∧
    (∀ (c : ECond) (dest : Nat) (a b : String) (cell : Option Cell)
      (vars : Varmap) (pb : List String),
      execute (.Jump c dest a b) cell vars pb =
        (cell,
          (if condMet c (resolve vars a) (resolve vars b) then
            insertVar vars counterName dest
          else vars), pb)) := by
  refine ⟨rfl, rfl, rfl, rfl, ?_, ?_⟩
  · intro v
    refine ⟨?_, ?_, ?_, ?_, rfl, rfl, rfl, rfl⟩ <;> simp [condMet]
  · intro c dest a b cell vars pb
    by_cases h : condMet c (resolve vars a) (resolve vars b) = true <;>
      simp [execute, h]

/-- C4 counterexample: when `pause` is the last instruction of the
program, the overflow check fires before the pause check, so the run
stops with `@counter` wrapped to 0 — not left at its post-execution
value 1 as the claim asserts. -/
theorem claim_C4_counterexample :
    (run (Emulator.new none [.Pause]) 10).finalCounter = some 0 ∧
    (run (Emulator.new none [.Pause]) 10).finalCounter ≠ some 1 ∧
    (run (Emulator.new none [.Pause]) 10).outputLines.length = 1 := by
  decide

/-- C4 (amended): each run step snapshots `ip = @counter` (0 when
absent), sets `@counter = ip + 1`, and executes `instructions[ip]`;
afterwards, if the instruction was `end` or `@counter` resolves to at
least the instruction count, `@counter` wraps to 0 and the run stops;
otherwise a `pause` stops the run with `@counter` left at its
post-execution value (for a bare `pause` that value is `ip + 1`) — but
when the `pause` is the LAST instruction, `ip + 1` equals the
instruction count, the overflow branch fires first, and `@counter` is
wrapped to 0. -/
theorem claim_C4_amended (maxSteps fuel : Nat) (firstStep : Bool)
    (e : Emulator) (out : List String) (ip : Nat) (instr : Instruction)
    (hlen : out.length < maxSteps)
    (hbp : firstStep = true ∨ ip ∉ e.breakpoints)
    (hip : counterValOf e = ip)
    (hinstr : e.instructions[ip]? = some instr) :
    (runLoop maxSteps (fuel + 1) firstStep e out =
      (if instr = .End ∨
          e.instructions.length ≤ counterValOf (stepExec e ip instr) then
        .ok (withCounterZero (stepExec e ip instr)) (stepOut e out ip instr)
      else if instr = .Pause then
        .ok (stepExec e ip instr) (stepOut e out ip instr)
      else
        runLoop maxSteps fuel false (stepExec e ip instr)
          (stepOut e out ip instr))) ∧
    (instr = .Pause → counterValOf (stepExec e ip instr) = ip + 1) ∧
    (instr = .Pause → ip + 1 < e.instructions.length →
      runLoop maxSteps (fuel + 1) firstStep e out =
        .ok (stepExec e ip instr) (stepOut e out ip instr)) ∧
    (instr = .Pause → ip + 1 = e.instructions.length →
      runLoop maxSteps (fuel + 1) firstStep e out =
        .ok (withCounterZero (stepExec e ip instr))
          (stepOut e out ip instr)) := by
  have hmain := runLoop_step maxSteps fuel firstStep e out ip instr
    hlen hbp hip hinstr
  refine ⟨hmain, ?_, ?_, ?_⟩
  · intro hp; subst hp; exact counterValOf_stepExec_pause e ip
  · intro hp hlt; subst hp
    rw [hmain, if_neg, if_pos rfl]
    rw [counterValOf_stepExec_pause]
    simp
    omega
  · intro hp hlt; subst hp
    rw [hmain, if_pos]
    rw [counterValOf_stepExec_pause]
    omega

/-- C4 witness: a concrete two-instruction program `[pause, end]`
executing its `pause` at `ip = 0`: the run stops unwrapped with
`@counter = 1`. -/
theorem claim_C4_witness :
    runLoop 10 9 true (Emulator.new none [.Pause, .End]) [] =
      .ok (stepExec (Emulator.new none [.Pause, .End]) 0 .Pause)
        (stepOut (Emulator.new none [.Pause, .End]) [] 0 .Pause) ∧
    counterValOf (stepExec (Emulator.new none [.Pause, .End]) 0 .Pause) = 1 := by
  have h := claim_C4_amended 10 9 true (Emulator.new none [.Pause, .End]) []
    0 .Pause (by decide) (by decide) (by decide) (by decide)
  exact ⟨h.2.2.1 rfl (by decide), h.2.1 rfl⟩

/-- C10: an operand token accepted by Rust's `usize` parser always
resolves to that literal value, taking precedence over the variable
map; so a variable whose name is such a numeral can be written
(`lookupVar` sees the binding) but a `resolve` of the token always
yields the literal, never the stored value. -/
theorem claim_C10 (tok : String) (n : Nat) (h : parseUsize tok = some n) :
    (∀ vars : Varmap, resolve vars tok = some n) ∧
    (∀ (vars : Varmap) (m : Nat),
      resolve (insertVar vars tok m) tok = some n) ∧
    (∀ (vars : Varmap) (m : Nat),
      lookupVar (insertVar vars tok m) tok = some m) := by
  refine ⟨fun vars => ?_, fun vars m => ?_, fun vars m => ?_⟩
  · simp [resolve, h]
  · simp [resolve, h]
  · exact lookupVar_insertVar_self vars tok m

/-- C10 witness: `set 5 9` writes the binding, but reading token `"5"`
yields the literal 5. -/
theorem claim_C10_witness :
    parseUsize "5" = some 5 ∧
    resolve (insertVar [] "5" 9) "5" = some 5 ∧
    lookupVar (insertVar [] "5" 9) "5" = some 9 :=
  ⟨by decide, (claim_C10 "5" 5 (by decide)).2.1 [] 9,
    (claim_C10 "5" 5 (by decide)).2.2 [] 9⟩

/-- C7: in the emulator's `op` instruction, a null operand is treated
as 0 (both operands go through `unwrap_or(0)`), `mod` with a zero (or
null) right operand stores 0, and `add`/`sub`/`mul` wrap modulo
`2^64`; in particular subtracting a larger value from a smaller one
wraps to `2^64 - (b - a)` instead of failing. -/
theorem claim_C7 (vars : Varmap) (cell : Option Cell) (pb : List String)
    (m : EMath) (dest a b : String) (va vb : Nat)
    (hva : (resolve vars a).getD 0 = va)
    (hvb : (resolve vars b).getD 0 = vb)
    (hvaLt : va < usizeMod) (hvbLt : vb < usizeMod) :
    execute (.Math m dest a b) cell vars pb =
      (cell, insertVar vars dest (mathEval m va vb), pb) ∧
    (resolve vars a = none → va = 0) ∧
    (resolve vars b = none → vb = 0) ∧
    (vb = 0 → mathEval .Mod va vb = 0) ∧
    mathEval .Add va vb = (va + vb) % usizeMod ∧
    mathEval .Mul va vb = (va * vb) % usizeMod ∧
    (va < vb → mathEval .Sub va vb = usizeMod - (vb - va)) ∧
    (vb ≤ va → mathEval .Sub va vb = va - vb) := by
  refine ⟨?_, ?_, ?_, ?_, rfl, rfl, ?_, ?_⟩
  · simp [execute, hva, hvb]
  · intro h; rw [← hva, h]; rfl
  · intro h; rw [← hvb, h]; rfl
  · intro h; simp [mathEval, h]
  · intro h
    have hb : vb % usizeMod = vb := Nat.mod_eq_of_lt hvbLt
    simp only [mathEval, hb]
    have : va + (usizeMod - vb) < usizeMod := by omega
    rw [Nat.mod_eq_of_lt this]
    omega
  · intro h
    have hb : vb % usizeMod = vb := Nat.mod_eq_of_lt hvbLt
    simp only [mathEval, hb]
    have husize : 0 < usizeMod := by decide
    have h2 : va + (usizeMod - vb) = (va - vb) + usizeMod := by omega
    rw [h2, Nat.add_mod_right, Nat.mod_eq_of_lt (by omega)]

/-- C7 witness: `op sub` of 5 from 2 (with `x = 2` and the literal
operand `5`) wraps to `2^64 - 3`, and `op mod` by 0 yields 0. -/
theorem claim_C7_witness :
    execute (.Math .Sub "d" "x" "5") none [("x", 2)] [] =
      (none, insertVar [("x", 2)] "d" (mathEval .Sub 2 5), []) ∧
    mathEval .Sub 2 5 = usizeMod - 3 ∧
    execute (.Math .Mod "d" "y" "0") none [("x", 2)] [] =
      (none, insertVar [("x", 2)] "d" (mathEval .Mod 0 0), []) ∧
    mathEval .Mod 0 0 = 0 := by
  have h := claim_C7 [("x", 2)] none [] .Sub "d" "x" "5" 2 5
    (by decide) (by decide) (by decide) (by decide)
  have h2 := claim_C7 [("x", 2)] none [] .Mod "d" "y" "0" 0 0
    (by decide) (by decide) (by decide) (by decide)
  refine ⟨h.1, ?_, h2.1, h2.2.2.2.1 rfl⟩
  have := h.2.2.2.2.2.2.1 (by decide)
  simpa using this

theorem runLoop_output_le (maxSteps : Nat) :
    ∀ (fuel : Nat) (fs : Bool) (e : Emulator) (out : List String),
      (∀ i ∈ e.instructions, isPrintFlush i = false) →
      out.length ≤ maxSteps →
      (runLoop maxSteps fuel fs e out).outputLines.length ≤ maxSteps := by
  intro fuel
  induction fuel with
  | zero =>
    intro fs e out _ hle
    simpa [runLoop, RunResult.outputLines] using hle
  | succ n ih =>
    intro fs e out hnp hle
    by_cases hl : out.length < maxSteps
    · by_cases hbp : fs = false ∧ counterValOf e ∈ e.breakpoints
      · simp only [runLoop, if_pos hl, if_pos hbp]
        simp only [RunResult.outputLines, List.length_append, List.length_cons,
          List.length_nil]
        omega
      · cases hInstr : e.instructions[counterValOf e]? with
        | none =>
          simp only [runLoop, if_pos hl, if_neg hbp, hInstr]
          simp [RunResult.outputLines]
        | some instr =>
          have hbp' : fs = true ∨ counterValOf e ∉ e.breakpoints := by
            cases fs
            · exact Or.inr (fun hm => hbp ⟨rfl, hm⟩)
            · exact Or.inl rfl
          have hmem : instr ∈ e.instructions := by
            have := List.getElem?_eq_some.mp hInstr
            obtain ⟨hlt, heq⟩ := this
            exact heq ▸ List.getElem_mem hlt
          have hpf : isPrintFlush instr = false := hnp instr hmem
          have hout2 : (stepOut e out (counterValOf e) instr).length =
              out.length + 1 := by
            rw [stepOut_not_printFlush _ _ _ _ hpf]
            simp
          rw [runLoop_step maxSteps n fs e out (counterValOf e) instr hl hbp'
            rfl hInstr]
          split
          · simp only [RunResult.outputLines, hout2]; omega
          · split
            · simp only [RunResult.outputLines, hout2]; omega
            · refine ih false _ _ ?_ ?_
              · rw [stepExec_instructions]; exact hnp
              · omega
    · simp only [runLoop, if_neg hl]
      simpa [RunResult.outputLines] using hle

/-- C5 counterexample: a two-instruction program whose `printflush`
prints two buffered lines makes `run(2)` return 4 lines (two trace
lines plus two `"\tPrinted to ..."` lines), exceeding `max_steps`. -/
theorem claim_C5_counterexample :
    (run (Emulator.new none [.Print "\"a\\nb\"", .PrintFlush "message1"])
      2).outputLines.length = 4 := by
  decide

/-- C5 (amended): each executed step appends exactly one trace line
(and a stop at a breakpoint appends exactly one breakpoint line), so
for a program containing no `printflush` instruction `run(max_steps)`
returns at most `max_steps` lines; the `"\tPrinted to ..."` lines a
`printflush` emits are NOT counted against the budget and can push the
total beyond `max_steps`. -/
theorem claim_C5_amended (e : Emulator) (maxSteps : Nat)
    (h : ∀ i ∈ e.instructions, isPrintFlush i = false) :
    (run e maxSteps).outputLines.length ≤ maxSteps := by
  unfold run
  split
  · simp [RunResult.outputLines]
  · exact runLoop_output_le maxSteps maxSteps true e [] h (by simp)

/-- C5 witness: a `printflush`-free program with a breakpoint-free run
stays within the budget. -/
theorem claim_C5_witness :
    (run (Emulator.new none [.Set "x" "1", .End]) 3).outputLines.length ≤ 3 :=
  claim_C5_amended (Emulator.new none [.Set "x" "1", .End]) 3 (by decide)

theorem runLoop_no_oob (maxSteps : Nat) :
    ∀ (fuel : Nat) (fs : Bool) (e : Emulator) (out : List String),
      counterValOf e < e.instructions.length →
      ∃ e' out', runLoop maxSteps fuel fs e out = .ok e' out' ∧
        e'.instructions = e.instructions ∧
        counterValOf e' < e'.instructions.length := by
  intro fuel
  induction fuel with
  | zero => intro fs e out hlt; exact ⟨e, out, rfl, rfl, hlt⟩
  | succ n ih =>
    intro fs e out hlt
    by_cases hl : out.length < maxSteps
    · simp only [runLoop, if_pos hl]
      by_cases hbp : fs = false ∧ counterValOf e ∈ e.breakpoints
      · rw [if_pos hbp]; exact ⟨e, _, rfl, rfl, hlt⟩
      · rw [if_neg hbp]
        have hInstr : e.instructions[counterValOf e]? =
            some (e.instructions[counterValOf e]) :=
          List.getElem?_eq_getElem hlt
        rw [hInstr]
        simp only []
        split
        · refine ⟨_, _, rfl, ?_, ?_⟩
          · rw [withCounterZero_instructions, stepExec_instructions]
          · rw [counterValOf_withCounterZero, withCounterZero_instructions,
              stepExec_instructions]
            omega
        · next hstop =>
          push_neg at hstop
          split
          · exact ⟨_, _, rfl, stepExec_instructions .., by
              rw [stepExec_instructions]; exact hstop.2⟩
          · obtain ⟨e', out', heq, hins, hcnt⟩ := ih false
              (stepExec e (counterValOf e) (e.instructions[counterValOf e]))
              (stepOut e out (counterValOf e)
                (e.instructions[counterValOf e]))
              (by rw [stepExec_instructions]; exact hstop.2)
            exact ⟨e', out', heq, by rw [hins, stepExec_instructions], hcnt⟩
    · exact ⟨e, out, by simp [runLoop, hl], rfl, hlt⟩

/-- C8 (implicit safety): the run loop never indexes `instructions`
out of bounds.  A fresh emulator satisfies the counter invariant
(`@counter` absent, program empty or index 0 valid); `run` on a state
satisfying the invariant never reaches the out-of-bounds index
(modelled by the `oob` result) and re-establishes the invariant for
its final state; and `set_breakpoints`/`set_watches` preserve it — so
every sequence of such calls stays in bounds. -/
theorem claim_C8 :
    (∀ (cell : Option Cell) (instrs : List Instruction),
      counterOk (Emulator.new cell instrs)) ∧
    (∀ (e : Emulator) (maxSteps : Nat), counterOk e →
      run e maxSteps ≠ .oob ∧
      ∀ e' out, run e maxSteps = .ok e' out → counterOk e') ∧
    (∀ (e : Emulator) (bps : List Nat), counterOk e →
      counterOk (setBreakpoints e bps)) ∧
    (∀ (e : Emulator) (ws : List String), counterOk e →
      counterOk (setWatches e ws)) := by
  refine ⟨?_, ?_, ?_, ?_⟩
  · intro cell instrs
    cases instrs with
    | nil => exact Or.inl rfl
    | cons i rest =>
      refine Or.inr ?_
      simp [Emulator.new, counterValOf, lookupVar]
  · intro e maxSteps hok
    unfold run
    by_cases hemp : e.instructions = []
    · rw [if_pos hemp]
      exact ⟨by simp, fun e' out heq => by
        cases heq
        exact hok⟩
    · rw [if_neg hemp]
      have hlt : counterValOf e < e.instructions.length := by
        rcases hok with h | h
        · exact absurd h hemp
        · exact h
      obtain ⟨e', out', heq, hins, hcnt⟩ :=
        runLoop_no_oob maxSteps maxSteps true e [] hlt
      rw [heq]
      refine ⟨by simp, fun e'' out'' heq' => ?_⟩
      cases heq'
      exact Or.inr hcnt
  · intro e bps hok
    rcases hok with h | h
    · exact Or.inl h
    · exact Or.inr h
  · intro e ws hok
    rcases hok with h | h
    · exact Or.inl h
    · exact Or.inr h

/-- C8 witness: a concrete nonempty program satisfies the invariant
and its run does not go out of bounds. -/
theorem claim_C8_witness :
    counterOk (Emulator.new none [.Set "x" "1", .End]) ∧
    run (Emulator.new none [.Set "x" "1", .End]) 5 ≠ .oob :=
  ⟨claim_C8.1 none [.Set "x" "1", .End],
    (claim_C8.2.1 (Emulator.new none [.Set "x" "1", .End]) 5 (by decide)).1⟩

/-- C6: every unconditional always-jump the compiler emits renders the
sentinel `always x false` verbatim, and the `never` keyword renders
`equal 0 1`: (1) the two sentinel conditions print exactly those
texts; (2) the surface keywords `always`/`never` parse to exactly the
sentinel conditions, and no parsed condition spells `always` any other
way; (3) the `Else` op, (4) the `While` header, (5) the `LoopEnd` of
an infinite loop (whose `}` synthesises a `LoopEnd` carrying the
`always` sentinel), (6) `Break`, (7) `Continue`, (8) the skip jump of
`If`, and (9) `Call`'s jump to the function entry all emit their
unconditional jump with the literal suffix `always x false`. -/
theorem claim_C6 :
    (conditionAlways.toText = "always x false" ∧
      conditionNever.toText = "equal 0 1") ∧
    (∀ (f : Option String) (rest : List String),
      parseCondition f ("always" :: rest) = .ok ([], conditionAlways) ∧
      parseCondition f ("never" :: rest) = .ok ([], conditionNever)) ∧
    (∀ (f : Option String) (tok : List String) (seq : List IrOp)
      (c : Condition), parseCondition f tok = .ok (seq, c) →
      c.cond = "always" → c = conditionAlways) ∧
    (∀ (ir : Ir) (ic e : Nat), genOp ir ic (.Else (some e)) =
      .ok ["jump " ++ toString e ++ " always x false"]) ∧
    (∀ (ir : Ir) (ic b p q : Nat) (seq : List IrOp) (c : Condition),
      genOp ir ic (.While b seq c (some (p, q))) =
        .ok ["jump " ++ toString p ++ " always x false"]) ∧
    (∀ (ctx : ParserContext) (idx bs : Nat),
      ctx.ops[idx]? = some (.InfiniteLoop bs none) →
      ∃ ctx', handleSingleClosingBrace ctx idx =
        .ok ([.LoopEnd bs conditionAlways], ctx')) ∧
    (∀ (ir : Ir) (ic bs : Nat), genOp ir ic (.LoopEnd bs conditionAlways) =
      .ok ["jump " ++ toString bs ++ " always x false"]) ∧
    (∀ (ir : Ir) (ic index : Nat) (lines : List String),
      genOp ir ic (.Break index) = .ok lines →
      ∃ a : Nat, lines = ["jump " ++ toString a ++ " always x false"]) ∧
    (∀ (ir : Ir) (ic index : Nat) (lines : List String),
      genOp ir ic (.Continue index) = .ok lines →
      ∃ a : Nat, lines = ["jump " ++ toString a ++ " always x false"]) ∧
    (∀ (ir : Ir) (ic e : Nat) (c : Condition),
      genOp ir ic (.If c (some e)) =
        .ok ["jump " ++ toString (ic + 2) ++ " " ++ c.toText,
          "jump " ++ toString e ++ " always x false"]) ∧
    (∀ (ir : Ir) (op : CallOp) (lines : List String),
      genCallOp ir op = .ok lines →
      ∃ a : Nat, ("jump " ++ toString a ++ " always x false") ∈ lines) := by
  refine ⟨⟨rfl, rfl⟩, ?_, ?_, ?_, ?_, ?_, ?_, ?_, ?_, ?_, ?_⟩
  · intro f rest
    constructor <;> simp [parseCondition]
  · intro f tok seq c h hcond
    cases tok with
    | nil => simp [parseCondition] at h
    | cons t0 rest =>
      by_cases ha : t0 = "always"
      · subst ha
        simp [parseCondition] at h
        rw [← h.2]
      · by_cases hn : t0 = "never"
        · subst hn
          simp [parseCondition] at h
          rw [← h.2] at hcond
          exact absurd hcond (by decide)
        · simp only [parseCondition, List.head?, if_neg ha, if_neg hn] at h
          cases rest with
          | nil => cases h
          | cons a1 rest2 =>
            cases rest2 with
            | nil => cases h
            | cons a2 rest3 =>
              cases rest3 with
              | cons _ _ => cases h
              | nil =>
                simp only [bind, Except.bind] at h
                split at h
                · cases h
                · split at h
                  · cases h
                  · split at h
                    · cases h
                    · split at h
                      · cases h
                      · cases h
                        simp only [Condition.cond] at hcond
                        exact absurd hcond ha
  · intro ir ic e
    simp [genOp, bind, Except.bind, Condition.toText, conditionAlways,
      String.append_assoc]
  · intro ir ic b p q seq c
    simp [genOp, bind, Except.bind, Condition.toText, conditionAlways,
      String.append_assoc]
  · intro ctx idx bs hop
    unfold handleSingleClosingBrace
    rw [hop]
    exact ⟨_, rfl⟩
  · intro ir ic bs
    simp [genOp, Condition.toText, conditionAlways, String.append_assoc]
  · intro ir ic index lines h
    simp only [genOp] at h
    split at h
    · split at h
      · cases h; exact ⟨_, rfl⟩
      · cases h
    · split at h
      · cases h; exact ⟨_, rfl⟩
      · cases h
    · split at h
      · cases h; exact ⟨_, rfl⟩
      · cases h
    · cases h
  · intro ir ic index lines h
    simp only [genOp] at h
    split at h
    · split at h
      · cases h; exact ⟨_, rfl⟩
      · cases h
    · cases h; exact ⟨_, rfl⟩
    · split at h
      · cases h; exact ⟨_, rfl⟩
      · cases h
    · cases h
  · intro ir ic e c
    simp [genOp, bind, Except.bind, String.append_assoc]
  · intro ir op lines h
    unfold genCallOp at h
    simp only [bind, Except.bind] at h
    split at h
    · cases h
    · split at h
      · cases h
      · split at h
        · cases h
        · split at h
          · cases h
          · split at h
            · cases h
            · split at h
              · cases h
              · cases h
                exact ⟨_, List.mem_append_left _ (List.mem_append_right _
                  (List.mem_cons_self _ _))⟩

/-- C6 witness: concrete instances of the conditional conjuncts — an
unresolved infinite loop whose closing brace synthesises the
always-sentinel `LoopEnd`, a `Break` targeting a resolved loop, a
fully resolved zero-argument call whose emitted lines contain the
always-jump, and the `always`-spelling uniqueness applied to the
parsed `always` keyword. -/
theorem claim_C6_witness :
    (∃ ctx', handleSingleClosingBrace
      ⟨[IrOp.InfiniteLoop 0 none], 5, .Internal, [], [], [], false⟩ 0 =
        .ok ([.LoopEnd 0 conditionAlways], ctx')) ∧
    (∃ a : Nat, (["jump 3 always x false"] : List String) =
      ["jump " ++ toString a ++ " always x false"]) ∧
    (∃ a : Nat, ("jump " ++ toString a ++ " always x false") ∈
      (["op add MF_acc @counter 4", "op add MF_resume @counter 2",
        "op mul MF_tmp 3 MF_stack_sz", "op add @counter 10 MF_tmp",
        "jump 2 always x false"] : List String)) ∧
    conditionAlways = conditionAlways := by
  obtain ⟨-, hkw, h3, -, -, h6, -, h8, -, -, h11⟩ := claim_C6
  refine ⟨h6 ⟨[IrOp.InfiniteLoop 0 none], 5, .Internal, [], [], [], false⟩
      0 0 rfl, ?_, ?_, h3 none ["always"] [] conditionAlways
      (hkw none []).1 rfl⟩
  · exact h8 ⟨[IrOp.InfiniteLoop 0 (some 3)], .Internal 0, [], [],
      .Internal, .Internal ⟨3, 2, 2, 10, 13, 15⟩⟩ 0 0 _ (by rfl)
  · exact h11 ⟨[], .Internal 1, [], [("f", ⟨"f", [], [], [], some 2⟩)],
      .Internal, .Internal ⟨3, 2, 2, 10, 13, 15⟩⟩
      (CallOp.new [] [] 0 "f" none .Internal) _ (by rfl)

theorem genTable_succ (entry : Nat → List String) (n : Nat) :
    genTable entry (n + 1) = genTable entry n ++ entry n := by
  simp [genTable, List.range_succ]

theorem genTable_length (entry : Nat → List String) (k : Nat)
    (hk : ∀ j, (entry j).length = k) (n : Nat) :
    (genTable entry n).length = k * n := by
  induction n with
  | zero => simp [genTable]
  | succ m ih =>
    rw [genTable_succ]
    simp [ih, hk]
    ring

theorem genTable_getElem (entry : Nat → List String) (k : Nat)
    (hk : ∀ j, (entry j).length = k) (n j i : Nat) (hj : j < n) (hi : i < k) :
    (genTable entry n)[k * j + i]? = (entry j)[i]? := by
  induction n with
  | zero => omega
  | succ m ih =>
    rw [genTable_succ]
    rcases Nat.lt_succ_iff_lt_or_eq.mp hj with h | h
    · have hlenm := genTable_length entry k hk m
      have hmul : k * (j + 1) ≤ k * m := Nat.mul_le_mul_left k (Nat.succ_le_of_lt h)
      have h1 : k * (j + 1) = k * j + k := by ring
      rw [h1] at hmul
      rw [List.getElem?_append, if_pos (by rw [hlenm]; omega)]
      exact ih h
    · subst h
      rw [List.getElem?_append_right]
      · rw [genTable_length entry k hk]
        congr 1
        omega
      · rw [genTable_length entry k hk]
        omega

theorem stack_suffix_getElem (userLines T : List String) (ic m : Nat)
    (hlen : userLines.length = ic) :
    (userLines ++ "end" :: T)[ic + 1 + m]? = T[m]? := by
  rw [List.getElem?_append_right (by omega)]
  rw [hlen]
  have : ic + 1 + m - ic = m + 1 := by omega
  rw [this, List.getElem?_cons_succ]

/-- C2: for the internal backend with stack size `N > 0`, the
parameters computed at the end of pass 2 satisfy
`push_table_start = instruction_count + 1`,
`pop_table_start = push_table_start + 3N`,
`poke_table_start = pop_table_start + 2N`, with entry sizes
push=3, pop=2, poke=2; the generator appends after the user program
exactly one `end` at `push_table_start - 1`, then `N` push entries of
3 instructions each, `N` pop entries of 2, and `N` poke entries of 2,
with exactly the claimed instruction texts at the claimed absolute
addresses; and the user program and the three tables occupy disjoint
address ranges. -/
theorem claim_C2 (N ic : Nat) (userLines : List String)
    (hN : 0 < N) (hlen : userLines.length = ic) :
    (computeInternalParams ic N).pushTableStart = ic + 1 ∧
    (computeInternalParams ic N).popTableStart =
      (computeInternalParams ic N).pushTableStart + 3 * N ∧
    (computeInternalParams ic N).pokeTableStart =
      (computeInternalParams ic N).popTableStart + 2 * N ∧
    (computeInternalParams ic N).pushEntrySize = 3 ∧
    (computeInternalParams ic N).popEntrySize = 2 ∧
    (computeInternalParams ic N).pokeEntrySize = 2 ∧
    (userLines ++ internalStackLines (.Internal N)).length =
      (computeInternalParams ic N).pokeTableStart + 2 * N ∧
    (userLines ++ internalStackLines (.Internal N))[
      (computeInternalParams ic N).pushTableStart - 1]? = some "end" ∧
    (∀ j < N,
      (userLines ++ internalStackLines (.Internal N))[
        (computeInternalParams ic N).pushTableStart + 3 * j]? =
        some ("set MF_stack[" ++ toString j ++ "] MF_acc") ∧
      (userLines ++ internalStackLines (.Internal N))[
        (computeInternalParams ic N).pushTableStart + 3 * j + 1]? =
        some "op add MF_stack_sz MF_stack_sz 1" ∧
      (userLines ++ internalStackLines (.Internal N))[
        (computeInternalParams ic N).pushTableStart + 3 * j + 2]? =
        some "set @counter MF_resume") ∧
    (∀ j < N,
      (userLines ++ internalStackLines (.Internal N))[
        (computeInternalParams ic N).popTableStart + 2 * j]? =
        some ("set MF_acc MF_stack[" ++ toString j ++ "]") ∧
      (userLines ++ internalStackLines (.Internal N))[
        (computeInternalParams ic N).popTableStart + 2 * j + 1]? =
        some "set @counter MF_resume") ∧
    (∀ j < N,
      (userLines ++ internalStackLines (.Internal N))[
        (computeInternalParams ic N).pokeTableStart + 2 * j]? =
        some ("set MF_stack[" ++ toString j ++ "] MF_acc") ∧
      (userLines ++ internalStackLines (.Internal N))[
        (computeInternalParams ic N).pokeTableStart + 2 * j + 1]? =
        some "set @counter MF_resume") ∧
    (ic < (computeInternalParams ic N).pushTableStart ∧
      (computeInternalParams ic N).pushTableStart + 3 * N ≤
        (computeInternalParams ic N).popTableStart ∧
      (computeInternalParams ic N).popTableStart + 2 * N ≤
        (computeInternalParams ic N).pokeTableStart) ∧
    (∀ ir : Ir, ir.backend = .Internal → ir.stackConfig = .Internal N →
      generateOps ir 0 ir.ops = .ok userLines →
      generate ir = .ok (userLines ++ internalStackLines (.Internal N))) := by
  have hstack : internalStackLines (.Internal N) =
      "end" :: (genTable pushEntry N ++ genTable popEntry N ++
        genTable pokeEntry N) := by
    cases N with
    | zero => omega
    | succ m => rfl
  have hpushLen : (genTable pushEntry N).length = 3 * N :=
    genTable_length pushEntry 3 (fun j => rfl) N
  have hpopLen : (genTable popEntry N).length = 2 * N :=
    genTable_length popEntry 2 (fun j => rfl) N
  have hpokeLen : (genTable pokeEntry N).length = 2 * N :=
    genTable_length pokeEntry 2 (fun j => rfl) N
  have hT : ∀ m : Nat,
      (userLines ++ internalStackLines (.Internal N))[ic + 1 + m]? =
      (genTable pushEntry N ++ genTable popEntry N ++
        genTable pokeEntry N)[m]? := by
    intro m
    rw [hstack]
    exact stack_suffix_getElem userLines _ ic m hlen
  refine ⟨rfl, rfl, rfl, rfl, rfl, rfl, ?_, ?_, ?_, ?_, ?_, ?_, ?_⟩
  · rw [hstack]
    simp [hlen, hpushLen, hpopLen, hpokeLen, computeInternalParams]
    omega
  · show (userLines ++ internalStackLines (.Internal N))[ic + 1 - 1]? = _
    rw [hstack]
    have : ic + 1 - 1 = ic := by omega
    rw [this, List.getElem?_append_right (by omega), hlen]
    simp
  · intro j hj
    have base : ∀ i, i < 3 →
        (userLines ++ internalStackLines (.Internal N))[ic + 1 + (3 * j + i)]? =
        (pushEntry j)[i]? := by
      intro i hi
      rw [hT (3 * j + i)]
      rw [List.getElem?_append,
        if_pos (by rw [List.length_append, hpushLen, hpopLen]; omega)]
      rw [List.getElem?_append, if_pos (by rw [hpushLen]; omega)]
      exact genTable_getElem pushEntry 3 (fun j => rfl) N j i hj hi
    refine ⟨?_, ?_, ?_⟩
    · have := base 0 (by omega)
      simpa [computeInternalParams, pushEntry, Nat.add_assoc] using this
    · have := base 1 (by omega)
      simpa [computeInternalParams, pushEntry, Nat.add_assoc] using this
    · have := base 2 (by omega)
      simpa [computeInternalParams, pushEntry, Nat.add_assoc] using this
  · intro j hj
    have base : ∀ i, i < 2 →
        (userLines ++ internalStackLines (.Internal N))[
          ic + 1 + (3 * N + (2 * j + i))]? = (popEntry j)[i]? := by
      intro i hi
      rw [hT (3 * N + (2 * j + i))]
      rw [List.getElem?_append,
        if_pos (by rw [List.length_append, hpushLen, hpopLen]; omega)]
      rw [List.getElem?_append, if_neg (by rw [hpushLen]; omega), hpushLen]
      have : 3 * N + (2 * j + i) - 3 * N = 2 * j + i := by omega
      rw [this]
      exact genTable_getElem popEntry 2 (fun j => rfl) N j i hj hi
    refine ⟨?_, ?_⟩
    · have := base 0 (by omega)
      simpa [computeInternalParams, popEntry, Nat.add_assoc] using this
    · have := base 1 (by omega)
      simpa [computeInternalParams, popEntry, Nat.add_assoc] using this
  · intro j hj
    have base : ∀ i, i < 2 →
        (userLines ++ internalStackLines (.Internal N))[
          ic + 1 + (3 * N + 2 * N + (2 * j + i))]? = (pokeEntry j)[i]? := by
      intro i hi
      rw [hT (3 * N + 2 * N + (2 * j + i))]
      rw [List.getElem?_append_right
          (by rw [List.length_append, hpushLen, hpopLen]; omega)]
      rw [List.length_append, hpushLen, hpopLen]
      have : 3 * N + 2 * N + (2 * j + i) - (3 * N + 2 * N) = 2 * j + i := by
        omega
      rw [this]
      exact genTable_getElem pokeEntry 2 (fun j => rfl) N j i hj hi
    refine ⟨?_, ?_⟩
    · have := base 0 (by omega)
      simpa [computeInternalParams, pokeEntry, Nat.add_assoc] using this
    · have := base 1 (by omega)
      simpa [computeInternalParams, pokeEntry, Nat.add_assoc] using this
  · refine ⟨by simp [computeInternalParams], ?_, ?_⟩ <;>
      simp [computeInternalParams]
  · intro ir hb hcfg hgen
    unfold generate
    rw [hgen]
    simp only [bind, Except.bind, hb, hcfg]

/-- C2 witness: a one-line user program with internal stack size 1. -/
theorem claim_C2_witness :
    (computeInternalParams 1 1).pushTableStart = 2 ∧
    (["set x 7"] ++ internalStackLines (.Internal 1))[1]? = some "end" ∧
    (["set x 7"] ++ internalStackLines (.Internal 1))[2]? =
      some ("set MF_stack[" ++ toString 0 ++ "] MF_acc") := by
  obtain ⟨h1, -, -, -, -, -, -, h8, h9, -⟩ :=
    claim_C2 1 1 ["set x 7"] (by decide) (by decide)
  refine ⟨h1, ?_, ?_⟩
  · simpa [computeInternalParams] using h8
  · have := (h9 0 (by decide)).1
    simpa [computeInternalParams] using this

theorem genCallArgs_length (ir : Ir) (csf : Option String)
    (hpm : paramsMatch ir) :
    ∀ (args : List Term) (j : Nat) (lines : List String),
      genCallArgs ir csf j args = .ok lines →
      lines.length = (args.map (callArgSize ir.backend)).sum := by
  intro args
  induction args with
  | nil =>
    intro j lines h
    simp only [genCallArgs] at h
    cases h
    rfl
  | cons arg rest ih =>
    intro j lines h
    simp only [genCallArgs, bind, Except.bind] at h
    split at h
    · cases h
    · rename_i chunk heqChunk
      split at h
      · cases h
      · rename_i restLines heqRest
        cases h
        have hchunk : chunk.length = callArgSize ir.backend arg := by
          cases arg with
          | StackVar sv =>
            simp only [] at heqChunk
            split at heqChunk
            · cases heqChunk
            · split at heqChunk
              · cases heqChunk
              · split at heqChunk
                · cases heqChunk
                · split at heqChunk
                  · rename_i p hbp
                    cases heqChunk
                    simp [callArgSize, paramsMatch_internal hpm hbp]
                  · rename_i c hbp
                    cases heqChunk
                    simp [callArgSize, paramsMatch_external hpm hbp]
          | Mindustry m =>
            simp only [] at heqChunk
            split at heqChunk
            · rename_i p hbp
              cases heqChunk
              simp [callArgSize, paramsMatch_internal hpm hbp]
            · rename_i c hbp
              cases heqChunk
              simp [callArgSize, paramsMatch_external hpm hbp]
        simp [List.length_append, hchunk, ih _ _ heqRest]

theorem genCallReturns_length (ir : Ir) (csf : Option String)
    (hpm : paramsMatch ir) :
    ∀ (returns : List Term) (j : Nat) (lines : List String),
      genCallReturns ir csf j returns = .ok lines →
      lines.length = (returns.map (callRetSize ir.backend)).sum := by
  intro returns
  induction returns with
  | nil =>
    intro j lines h
    simp only [genCallReturns] at h
    cases h
    rfl
  | cons arg rest ih =>
    intro j lines h
    simp only [genCallReturns, bind, Except.bind] at h
    split at h
    · cases h
    · rename_i chunk heqChunk
      split at h
      · cases h
      · rename_i restLines heqRest
        cases h
        have hchunk : chunk.length = callRetSize ir.backend arg := by
          cases arg with
          | StackVar sv =>
            simp only [] at heqChunk
            split at heqChunk
            · cases heqChunk
            · split at heqChunk
              · cases heqChunk
              · split at heqChunk
                · cases heqChunk
                · split at heqChunk
                  · rename_i p hbp
                    cases heqChunk
                    simp [callRetSize, paramsMatch_internal hpm hbp]
                  · rename_i c hbp
                    cases heqChunk
                    simp [callRetSize, paramsMatch_external hpm hbp]
          | Mindustry m =>
            simp only [] at heqChunk
            cases heqChunk
            cases hb : ir.backend <;> simp [callRetSize]
        simp [List.length_append, hchunk, ih _ _ heqRest]

theorem genReturnValues_length (ir : Ir) (f : FunctionOp)
    (hpm : paramsMatch ir) :
    ∀ (values : List Term) (j : Nat) (lines : List String),
      genReturnValues ir f j values = .ok lines →
      lines.length = (values.map (returnValueSize ir.backend)).sum := by
  intro values
  induction values with
  | nil =>
    intro j lines h
    simp only [genReturnValues] at h
    cases h
    rfl
  | cons arg rest ih =>
    intro j lines h
    simp only [genReturnValues, bind, Except.bind] at h
    split at h
    · cases h
    · rename_i chunk heqChunk
      split at h
      · cases h
      · rename_i restLines heqRest
        cases h
        have hchunk : chunk.length = returnValueSize ir.backend arg := by
          cases arg with
          | StackVar sv =>
            simp only [] at heqChunk
            split at heqChunk
            · cases heqChunk
            · split at heqChunk
              · rename_i p hbp
                cases heqChunk
                simp [returnValueSize, paramsMatch_internal hpm hbp]
              · rename_i c hbp
                cases heqChunk
                simp [returnValueSize, paramsMatch_external hpm hbp]
          | Mindustry m =>
            simp only [] at heqChunk
            cases heqChunk
            cases hb : ir.backend <;> simp [returnValueSize]
        simp [List.length_append, hchunk, ih _ _ heqRest]

theorem genCallOp_length (ir : Ir) (hpm : paramsMatch ir) (op : CallOp)
    (lines : List String) (hs : sizeOk ir (.Call op))
    (h : genCallOp ir op = .ok lines) :
    lines.length = op.totalSize := by
  obtain ⟨f, hf, hle, hbefore, htotal⟩ := hs
  unfold genCallOp at h
  simp only [bind, Except.bind] at h
  split at h
  · cases h
  · rename_i func heqF
    rw [hf] at heqF
    cases heqF
    split at h
    · cases h
    · rename_i hret
      split at h
      · cases h
      · rename_i hargs
        split at h
        · cases h
        · rename_i argLines heqArgs
          split at h
          · cases h
          · rename_i addr heqAddr
            split at h
            · cases h
            · rename_i retLines heqRets
              cases h
              have haLen := genCallArgs_length ir op.callSiteFunction hpm
                op.args 0 argLines heqArgs
              have hrLen := genCallReturns_length ir op.callSiteFunction hpm
                op.returns 0 retLines heqRets
              have hargs' : op.args.length = f.args.length := by
                by_contra hne
                exact hargs hne
              rw [htotal, hbefore]
              unfold callBeforeSize
              simp only [List.length_append, List.length_cons,
                List.length_nil, haLen, hrLen]
              by_cases hadd : 0 < f.locals.length - f.args.length
              · rw [if_pos hadd]
                have : f.locals.length ≠ op.args.length := by omega
                rw [if_pos this]
                cases hbp : ir.backendParams with
                | Internal p =>
                  rw [paramsMatch_internal hpm hbp] at *
                  simp
                  try omega
                | External c =>
                  rw [paramsMatch_external hpm hbp] at *
                  simp
                  try omega
              · rw [if_neg hadd]
                have : ¬ (f.locals.length ≠ op.args.length) := by omega
                rw [if_neg this]
                cases hbp : ir.backendParams with
                | Internal p =>
                  rw [paramsMatch_internal hpm hbp] at *
                  simp
                  try omega
                | External c =>
                  rw [paramsMatch_external hpm hbp] at *
                  simp
                  try omega

theorem genReturnOp_length (ir : Ir) (hpm : paramsMatch ir) (op : ReturnOp)
    (lines : List String) (hs : sizeOk ir (.Return op))
    (h : genReturnOp ir op = .ok lines) :
    lines.length = op.size := by
  unfold sizeOk at hs
  unfold genReturnOp at h
  simp only [bind, Except.bind] at h
  split at h
  · cases h
  · rename_i func heqF
    split at h
    · cases h
    · rename_i harity
      split at h
      · cases h
      · rename_i valueLines heqVals
        cases h
        have hvLen := genReturnValues_length ir func hpm op.values 0
          valueLines heqVals
        rw [hs]
        cases hbp : ir.backendParams with
        | Internal p =>
          rw [paramsMatch_internal hpm hbp] at *
          simp [List.length_append, hvLen]
          try omega
        | External c =>
          rw [paramsMatch_external hpm hbp] at *
          simp [List.length_append, hvLen]
          try omega

theorem genOp_length (ir : Ir) (hpm : paramsMatch ir) (ic : Nat)
    (op : IrOp) (lines : List String) (hs : sizeOk ir op)
    (h : genOp ir ic op = .ok lines) :
    lines.length = codeSize ir.backend op := by
  cases op with
  | CallProc target =>
    simp only [genOp, bind, Except.bind] at h
    split at h
    · cases h
    · split at h
      · rename_i p hbp
        cases h
        simp [codeSize, paramsMatch_internal hpm hbp]
      · rename_i c hbp
        cases h
        simp [codeSize, paramsMatch_external hpm hbp]
  | Label target =>
    simp only [genOp] at h
    cases h
    rfl
  | RetProc =>
    simp only [genOp] at h
    split at h
    · rename_i p hbp
      cases h
      simp [codeSize, paramsMatch_internal hpm hbp]
    · rename_i c hbp
      cases h
      simp [codeSize, paramsMatch_external hpm hbp]
  | Push =>
    simp only [genOp] at h
    split at h
    · rename_i p hbp
      cases h
      simp [codeSize, paramsMatch_internal hpm hbp]
    · rename_i c hbp
      cases h
      simp [codeSize, paramsMatch_external hpm hbp]
  | Pop =>
    simp only [genOp] at h
    split at h
    · rename_i p hbp
      cases h
      simp [codeSize, paramsMatch_internal hpm hbp]
    · rename_i c hbp
      cases h
      simp [codeSize, paramsMatch_external hpm hbp]
  | Peek depth =>
    cases hd : parseUsize depth with
    | some n =>
      simp only [genOp, hd] at h
      split at h
      · rename_i p hbp
        cases h
        simp [codeSize, paramsMatch_internal hpm hbp, hd]
      · rename_i c hbp
        cases h
        simp [codeSize, paramsMatch_external hpm hbp, hd]
    | none =>
      simp only [genOp, hd] at h
      split at h
      · rename_i p hbp
        cases h
        simp [codeSize, paramsMatch_internal hpm hbp, hd]
      · rename_i c hbp
        cases h
        simp [codeSize, paramsMatch_external hpm hbp, hd]
  | Poke depth =>
    cases hd : parseUsize depth with
    | some n =>
      simp only [genOp, hd] at h
      split at h
      · rename_i p hbp
        cases h
        simp [codeSize, paramsMatch_internal hpm hbp, hd]
      · rename_i c hbp
        cases h
        simp [codeSize, paramsMatch_external hpm hbp, hd]
    | none =>
      simp only [genOp, hd] at h
      split at h
      · rename_i p hbp
        cases h
        simp [codeSize, paramsMatch_internal hpm hbp, hd]
      · rename_i c hbp
        cases h
        simp [codeSize, paramsMatch_external hpm hbp, hd]
  | Jump target condition =>
    simp only [genOp, bind, Except.bind] at h
    split at h
    · cases h
    · cases h
      rfl
  | MindustryCommand command =>
    simp only [genOp] at h
    cases h
    rfl
  | If condition endAddr =>
    simp only [genOp, bind, Except.bind] at h
    split at h
    · cases h
    · cases h
      rfl
  | Else endAddr =>
    simp only [genOp, bind, Except.bind] at h
    split at h
    · cases h
    · cases h
      rfl
  | While bodyStart endSeq condition forward =>
    simp only [genOp, bind, Except.bind] at h
    split at h
    · cases h
    · cases h
      rfl
  | DoWhile bodyStart forward =>
    simp only [genOp] at h
    cases h
    rfl
  | InfiniteLoop bodyStart endAddr =>
    simp only [genOp] at h
    cases h
    rfl
  | Break index =>
    simp only [genOp] at h
    split at h
    · split at h
      · cases h; rfl
      · cases h
    · split at h
      · cases h; rfl
      · cases h
    · split at h
      · cases h; rfl
      · cases h
    · cases h
  | Continue index =>
    simp only [genOp] at h
    split at h
    · split at h
      · cases h; rfl
      · cases h
    · cases h; rfl
    · split at h
      · cases h; rfl
      · cases h
    · cases h
  | LoopEnd bodyStart condition =>
    simp only [genOp] at h
    cases h
    rfl
  | Let name pos =>
    simp only [genOp] at h
    cases h
    rfl
  | GetStack global stack function =>
    simp only [genOp, bind, Except.bind] at h
    split at h
    · cases h
    · split at h
      · cases h
      · split at h
        · rename_i p hbp
          cases h
          by_cases hg : global = "MF_acc"
          · simp [codeSize, paramsMatch_internal hpm hbp, hg]
          · simp [codeSize, paramsMatch_internal hpm hbp, hg]
        · rename_i c hbp
          cases h
          simp [codeSize, paramsMatch_external hpm hbp]
  | SetStack global stack function =>
    simp only [genOp, bind, Except.bind] at h
    split at h
    · cases h
    · split at h
      · cases h
      · split at h
        · rename_i p hbp
          cases h
          by_cases hg : global = "MF_acc"
          · simp [codeSize, paramsMatch_internal hpm hbp, hg]
          · simp [codeSize, paramsMatch_internal hpm hbp, hg]
        · rename_i c hbp
          cases h
          simp [codeSize, paramsMatch_external hpm hbp]
  | Set dest source =>
    simp only [genOp] at h
    cases h
    rfl
  | Math operation dest arg1 arg2 =>
    simp only [genOp] at h
    cases h
    rfl
  | Function name size =>
    simp only [genOp, bind, Except.bind] at h
    split at h
    · cases h
    · cases h
      unfold sizeOk at hs
      simp [codeSize, hs]
  | Call op =>
    exact genCallOp_length ir hpm op lines hs h
  | Return op =>
    exact genReturnOp_length ir hpm op lines hs h

theorem generateOps_length (ir : Ir) (hpm : paramsMatch ir) :
    ∀ (ops : List IrOp) (ic : Nat) (out : List String),
      (∀ op ∈ ops, sizeOk ir op) → generateOps ir ic ops = .ok out →
      out.length = codeSizeSeq ir.backend ops := by
  intro ops
  induction ops with
  | nil =>
    intro ic out _ h
    simp only [generateOps] at h
    cases h
    rfl
  | cons op rest ih =>
    intro ic out hs h
    simp only [generateOps, bind, Except.bind] at h
    split at h
    · cases h
    · rename_i lines heqOp
      split at h
      · cases h
      · rename_i restLines heqRest
        cases h
        have h1 := genOp_length ir hpm ic op lines
          (hs op (List.mem_cons_self op rest)) heqOp
        have h2 := ih (ic + codeSize ir.backend op) restLines
          (fun o ho => hs o (List.mem_cons_of_mem op ho)) heqRest
        simp [codeSizeSeq, List.length_append, h1, h2]

theorem generateOps_decompose (ir : Ir) (hpm : paramsMatch ir) :
    ∀ (pre : List IrOp) (op : IrOp) (post : List IrOp) (ic : Nat)
      (out : List String),
      (∀ o ∈ pre ++ op :: post, sizeOk ir o) →
      generateOps ir ic (pre ++ op :: post) = .ok out →
      ∃ preLines opLines postLines,
        out = preLines ++ opLines ++ postLines ∧
        preLines.length = codeSizeSeq ir.backend pre ∧
        genOp ir (ic + codeSizeSeq ir.backend pre) op = .ok opLines ∧
        opLines.length = codeSize ir.backend op := by
  intro pre
  induction pre with
  | nil =>
    intro op post ic out hs h
    simp only [List.nil_append, generateOps, bind, Except.bind] at h
    split at h
    · cases h
    · rename_i lines heqOp
      split at h
      · cases h
      · rename_i restLines heqRest
        cases h
        refine ⟨[], lines, restLines, by simp, by simp [codeSizeSeq], ?_, ?_⟩
        · simpa [codeSizeSeq] using heqOp
        · exact genOp_length ir hpm ic op lines
            (hs op (List.mem_cons_self op post)) heqOp
  | cons p0 rest ih =>
    intro op post ic out hs h
    simp only [List.cons_append, generateOps, bind, Except.bind] at h
    split at h
    · cases h
    · rename_i lines heqOp
      split at h
      · cases h
      · rename_i restLines heqRest
        cases h
        have h0 := genOp_length ir hpm ic p0 lines
          (hs p0 (List.mem_cons_self p0 _)) heqOp
        obtain ⟨preLines, opLines, postLines, hout, hpre, hop, hoplen⟩ :=
          ih op post (ic + codeSize ir.backend p0) restLines
            (fun o ho => hs o (List.mem_cons_of_mem p0 ho)) heqRest
        refine ⟨lines ++ preLines, opLines, postLines, ?_, ?_, ?_, hoplen⟩
        · rw [hout]
          simp [List.append_assoc]
        · simp [codeSizeSeq, List.length_append, h0, hpre]
        · rw [← hop]
          congr 1
          simp [codeSizeSeq]
          omega

/-- C1: for every IR op variant and both backends, the number of lines
appended by the op's `generate` equals its `code_size(backend)`
(assuming only what the parser guarantees: the backend parameters
match the backend, and the sizes stored inside `Call`/`Return`/
`Function` ops are the ones their constructors computed); hence the
code generator's running `instruction_count` at the start of op `i` —
which by construction is the sum of the `code_size` of the ops before
`i` — is exactly the number of output lines already emitted, i.e. the
absolute address of the first line op `i` emits. -/
theorem claim_C1 (ir : Ir) (hpm : paramsMatch ir) :
    (∀ (ic : Nat) (op : IrOp) (lines : List String), sizeOk ir op →
      genOp ir ic op = .ok lines → lines.length = codeSize ir.backend op) ∧
    (∀ (ic : Nat) (ops : List IrOp) (out : List String),
      (∀ op ∈ ops, sizeOk ir op) → generateOps ir ic ops = .ok out →
      out.length = codeSizeSeq ir.backend ops) ∧
    (∀ (ic : Nat) (pre : List IrOp) (op : IrOp) (post : List IrOp)
      (out : List String),
      (∀ o ∈ pre ++ op :: post, sizeOk ir o) →
      generateOps ir ic (pre ++ op :: post) = .ok out →
      ∃ preLines opLines postLines,
        out = preLines ++ opLines ++ postLines ∧
        preLines.length = codeSizeSeq ir.backend pre ∧
        genOp ir (ic + codeSizeSeq ir.backend pre) op = .ok opLines ∧
        opLines.length = codeSize ir.backend op) :=
  ⟨fun ic op lines hs h => genOp_length ir hpm ic op lines hs h,
   fun ic ops out hs h => generateOps_length ir hpm ops ic out hs h,
   fun ic pre op post out hs h =>
     generateOps_decompose ir hpm pre op post ic out hs h⟩

/-- C1 witness: on a concrete internal-backend IR, the Set op emits
exactly one line, matching its code size. -/
theorem claim_C1_witness :
    (["set x 7"] : List String).length =
      codeSize Backend.Internal (.Set "x" "7") :=
  (claim_C1
      ⟨[], .Internal 4, [], [], .Internal,
        .Internal (computeInternalParams 0 4)⟩
      (by simp [paramsMatch])).1
    0 (.Set "x" "7") ["set x 7"] (by simp [sizeOk]) (by rfl)

theorem preparseFunction_stackConfig (tok : List String) (st st' : PreState)
    (h : preparseFunction tok st = .ok st') :
    st'.stackConfig = st.stackConfig := by
  simp only [preparseFunction, bind, Except.bind] at h
  repeat' split at h
  all_goals (cases h <;> rfl)

theorem preparseLet_stackConfig (tok : List String) (st st' : PreState)
    (h : preparseLet tok st = .ok st') :
    st'.stackConfig = st.stackConfig := by
  simp only [preparseLet, bind, Except.bind] at h
  repeat' split at h
  all_goals (cases h <;> rfl)

theorem preparseLine_stackConfig (st : PreState) (tok : List String)
    (st' : PreState) (h0 : tok.head? ≠ some "stack_config")
    (h : preparseLine st tok = .ok st') :
    st'.stackConfig = st.stackConfig := by
  simp only [preparseLine] at h
  split at h
  · exact preparseFunction_stackConfig _ _ _ h
  · exact preparseLet_stackConfig _ _ _ h
  · rename_i heq
    exact absurd heq h0
  · repeat' split at h
    all_goals (cases h <;> rfl)
  · repeat' split at h
    all_goals (cases h <;> rfl)

theorem preFold_stackConfig :
    ∀ (lines : List String) (st pre : PreState),
      (∀ line ∈ lines,
        (lexLine (cleanLine line)).head? ≠ some "stack_config") →
      lines.foldlM (fun st line => preparseLine st (lexLine (cleanLine line)))
        st = .ok pre →
      pre.stackConfig = st.stackConfig := by
  intro lines
  induction lines with
  | nil =>
    intro st pre _ h
    simp only [List.foldlM_nil] at h
    cases h
    rfl
  | cons a l ih =>
    intro st pre hns h
    rw [List.foldlM_cons] at h
    cases hp : preparseLine st (lexLine (cleanLine a)) with
    | error e =>
      rw [hp] at h
      simp only [bind, Except.bind] at h
      cases h
    | ok st1 =>
      rw [hp] at h
      simp only [bind, Except.bind] at h
      have h1 := preparseLine_stackConfig st _ st1
        (hns a (List.mem_cons_self a l)) hp
      have h2 := ih st1 pre (fun x hx => hns x (List.mem_cons_of_mem a hx)) h
      rw [h2, h1]

theorem parseLabelLine_hasStack (ctx : ParserContext) (name : String)
    (res : LineResult) (h : parseLabelLine ctx name = .ok res) :
    res.2.hasStack = ctx.hasStack := by
  simp only [parseLabelLine, bind, Except.bind] at h
  repeat' split at h
  all_goals (cases h <;> rfl)

theorem parseJumpLine_hasStack (ctx : ParserContext) (tok : List String)
    (res : LineResult) (h : parseJumpLine ctx tok = .ok res) :
    res.2.hasStack = ctx.hasStack := by
  simp only [parseJumpLine, bind, Except.bind] at h
  repeat' split at h
  all_goals (cases h <;> rfl)

theorem parseWhileLine_hasStack (ctx : ParserContext) (tok : List String)
    (res : LineResult) (h : parseWhileLine ctx tok = .ok res) :
    res.2.hasStack = ctx.hasStack := by
  simp only [parseWhileLine, bind, Except.bind] at h
  repeat' split at h
  all_goals (cases h <;> rfl)

theorem parseDoLine_hasStack (ctx : ParserContext) (tok : List String)
    (res : LineResult) (h : parseDoLine ctx tok = .ok res) :
    res.2.hasStack = ctx.hasStack := by
  simp only [parseDoLine, bind, Except.bind] at h
  repeat' split at h
  all_goals (cases h <;> rfl)

theorem parseLoopLine_hasStack (ctx : ParserContext) (tok : List String)
    (res : LineResult) (h : parseLoopLine ctx tok = .ok res) :
    res.2.hasStack = ctx.hasStack := by
  simp only [parseLoopLine, bind, Except.bind] at h
  repeat' split at h
  all_goals (cases h <;> rfl)

theorem parseBreakLine_hasStack (ctx : ParserContext) (tok : List String)
    (res : LineResult) (h : parseBreakLine ctx tok = .ok res) :
    res.2.hasStack = ctx.hasStack := by
  simp only [parseBreakLine, bind, Except.bind] at h
  repeat' split at h
  all_goals (cases h <;> rfl)

theorem parseContinueLine_hasStack (ctx : ParserContext) (tok : List String)
    (res : LineResult) (h : parseContinueLine ctx tok = .ok res) :
    res.2.hasStack = ctx.hasStack := by
  simp only [parseContinueLine, bind, Except.bind] at h
  repeat' split at h
  all_goals (cases h <;> rfl)

theorem parseIfLine_hasStack (ctx : ParserContext) (tok : List String)
    (res : LineResult) (h : parseIfLine ctx tok = .ok res) :
    res.2.hasStack = ctx.hasStack := by
  simp only [parseIfLine, bind, Except.bind] at h
  repeat' split at h
  all_goals (cases h <;> rfl)

theorem parseOpLine_hasStack (ctx : ParserContext) (tok : List String)
    (res : LineResult) (h : parseOpLine ctx tok = .ok res) :
    res.2.hasStack = ctx.hasStack := by
  simp only [parseOpLine, bind, Except.bind] at h
  repeat' split at h
  all_goals (cases h <;> rfl)

theorem parseSetLine_hasStack (ctx : ParserContext) (line : String)
    (res : LineResult) (h : parseSetLine ctx line = .ok res) :
    res.2.hasStack = ctx.hasStack := by
  simp only [parseSetLine, bind, Except.bind] at h
  repeat' split at h
  all_goals (cases h <;> rfl)

theorem parsePrintLine_hasStack (ctx : ParserContext) (line : String)
    (res : LineResult) (h : parsePrintLine ctx line = .ok res) :
    res.2.hasStack = ctx.hasStack := by
  simp only [parsePrintLine, bind, Except.bind] at h
  repeat' split at h
  all_goals (cases h <;> rfl)

theorem parseMindustryCommandLine_hasStack (ctx : ParserContext) (tok : List String)
    (res : LineResult) (h : parseMindustryCommandLine ctx tok = .ok res) :
    res.2.hasStack = ctx.hasStack := by
  simp only [parseMindustryCommandLine, bind, Except.bind] at h
  repeat' split at h
  all_goals (cases h <;> rfl)

theorem handleSingleClosingBrace_hasStack (ctx : ParserContext)
    (idx : Nat) (res : LineResult)
    (h : handleSingleClosingBrace ctx idx = .ok res) :
    res.2.hasStack = ctx.hasStack := by
  simp only [handleSingleClosingBrace, bind, Except.bind] at h
  repeat' split at h
  all_goals (cases h <;> rfl)

theorem handleClosingBraceMore_hasStack (ctx : ParserContext)
    (tok : List String) (idx : Nat) (res : LineResult)
    (h : handleClosingBraceMore ctx tok idx = .ok res) :
    res.2.hasStack = ctx.hasStack := by
  simp only [handleClosingBraceMore, bind, Except.bind] at h
  repeat' split at h
  all_goals (cases h <;> rfl)

theorem parseClosingBrace_hasStack (ctx : ParserContext) (tok : List String)
    (res : LineResult) (h : parseClosingBrace ctx tok = .ok res) :
    res.2.hasStack = ctx.hasStack := by
  simp only [parseClosingBrace] at h
  split at h
  · cases h
  · split at h
    · exact (handleSingleClosingBrace_hasStack _ _ _ h).trans rfl
    · exact (handleClosingBraceMore_hasStack _ _ _ _ h).trans rfl

theorem parseLine_hasStack (ctx : ParserContext) (line : String)
    (tok : List String) (res : LineResult) (hctx : ctx.hasStack = false)
    (h : parseLine ctx line tok = .ok res) :
    res.2.hasStack = false := by
  simp only [parseLine] at h
  split at h
  case _ => cases h; exact hctx
  rename_i x t0 heq
  by_cases hc0 : t0 = "stack_config"
  · rw [if_pos hc0] at h
    cases h; exact hctx
  rw [if_neg hc0] at h
  by_cases hc1 : t0 = "callproc"
  · rw [if_pos hc1] at h
    exfalso; simp [parseCallprocLine, requireStack, hctx, bind, Except.bind] at h
  rw [if_neg hc1] at h
  by_cases hc2 : t0 = "ret"
  · rw [if_pos hc2] at h
    exfalso; simp [parseRetLine, requireStack, hctx, bind, Except.bind] at h
  rw [if_neg hc2] at h
  by_cases hc3 : t0.data.getLast? = some ':' ∧ tok.length = 1
  · rw [if_pos hc3] at h
    exact (parseLabelLine_hasStack _ _ _ h).trans hctx
  rw [if_neg hc3] at h
  by_cases hc4 : stripPre ['/', '/'] t0.data ≠ none
  · rw [if_pos hc4] at h
    cases h; exact hctx
  rw [if_neg hc4] at h
  by_cases hc5 : t0 = "push"
  · rw [if_pos hc5] at h
    exfalso; simp [parsePushLine, requireStack, hctx, bind, Except.bind] at h
  rw [if_neg hc5] at h
  by_cases hc6 : t0 = "poke"
  · rw [if_pos hc6] at h
    exfalso; simp [parsePokeLine, requireStack, hctx, bind, Except.bind] at h
  rw [if_neg hc6] at h
  by_cases hc7 : t0 = "peek"
  · rw [if_pos hc7] at h
    exfalso; simp [parsePeekLine, requireStack, hctx, bind, Except.bind] at h
  rw [if_neg hc7] at h
  by_cases hc8 : t0 = "pop"
  · rw [if_pos hc8] at h
    exfalso; simp [parsePopLine, requireStack, hctx, bind, Except.bind] at h
  rw [if_neg hc8] at h
  by_cases hc9 : t0 = "jump"
  · rw [if_pos hc9] at h
    exact (parseJumpLine_hasStack _ _ _ h).trans hctx
  rw [if_neg hc9] at h
  by_cases hc10 : t0 = "do"
  · rw [if_pos hc10] at h
    exact (parseDoLine_hasStack _ _ _ h).trans hctx
  rw [if_neg hc10] at h
  by_cases hc11 : t0 = "while"
  · rw [if_pos hc11] at h
    exact (parseWhileLine_hasStack _ _ _ h).trans hctx
  rw [if_neg hc11] at h
  by_cases hc12 : t0 = "loop"
  · rw [if_pos hc12] at h
    exact (parseLoopLine_hasStack _ _ _ h).trans hctx
  rw [if_neg hc12] at h
  by_cases hc13 : t0 = "break"
  · rw [if_pos hc13] at h
    exact (parseBreakLine_hasStack _ _ _ h).trans hctx
  rw [if_neg hc13] at h
  by_cases hc14 : t0 = "continue"
  · rw [if_pos hc14] at h
    exact (parseContinueLine_hasStack _ _ _ h).trans hctx
  rw [if_neg hc14] at h
  by_cases hc15 : t0 = "if"
  · rw [if_pos hc15] at h
    exact (parseIfLine_hasStack _ _ _ h).trans hctx
  rw [if_neg hc15] at h
  by_cases hc16 : t0 = "fn"
  · rw [if_pos hc16] at h
    exfalso; simp [parseFunctionLine, requireStack, hctx, bind, Except.bind] at h
  rw [if_neg hc16] at h
  by_cases hc17 : t0 = "return"
  · rw [if_pos hc17] at h
    exfalso; simp [parseReturnLine, requireStack, hctx, bind, Except.bind] at h
  rw [if_neg hc17] at h
  by_cases hc18 : t0 = "call"
  · rw [if_pos hc18] at h
    exfalso; simp [parseCallLine, requireStack, hctx, bind, Except.bind] at h
  rw [if_neg hc18] at h
  by_cases hc19 : t0 = "let"
  · rw [if_pos hc19] at h
    exfalso; simp [parseLetLine, requireStack, hctx, bind, Except.bind] at h
  rw [if_neg hc19] at h
  by_cases hc20 : t0 = "\x7d"
  · rw [if_pos hc20] at h
    exact (parseClosingBrace_hasStack _ _ _ h).trans hctx
  rw [if_neg hc20] at h
  by_cases hc21 : t0 = "op"
  · rw [if_pos hc21] at h
    exact (parseOpLine_hasStack _ _ _ h).trans hctx
  rw [if_neg hc21] at h
  by_cases hc22 : t0 = "set"
  · rw [if_pos hc22] at h
    exact (parseSetLine_hasStack _ _ _ h).trans hctx
  rw [if_neg hc22] at h
  by_cases hc23 : t0 = "print"
  · rw [if_pos hc23] at h
    exact (parsePrintLine_hasStack _ _ _ h).trans hctx
  rw [if_neg hc23] at h
  exact (parseMindustryCommandLine_hasStack _ _ _ h).trans hctx

theorem parseLine_stackTok_err (ctx : ParserContext) (line : String)
    (tok : List String) (res : LineResult) (t0 : String)
    (hctx : ctx.hasStack = false) (hhead : tok.head? = some t0)
    (ht : stackTok t0 = true) :
    parseLine ctx line tok ≠ .ok res := by
  intro h
  by_cases epush : t0 = "push"
  · subst epush
    simp only [parseLine, hhead] at h
    rw [if_neg (by decide)] at h
    rw [if_neg (by decide)] at h
    rw [if_neg (by decide)] at h
    rw [if_neg (fun hc => absurd hc.1 (by decide))] at h
    rw [if_neg (by decide)] at h
    rw [if_pos (by decide)] at h
    simp [parsePushLine, requireStack, hctx, bind, Except.bind] at h
  by_cases epop : t0 = "pop"
  · subst epop
    simp only [parseLine, hhead] at h
    rw [if_neg (by decide)] at h
    rw [if_neg (by decide)] at h
    rw [if_neg (by decide)] at h
    rw [if_neg (fun hc => absurd hc.1 (by decide))] at h
    rw [if_neg (by decide)] at h
    rw [if_neg (by decide)] at h
    rw [if_neg (by decide)] at h
    rw [if_neg (by decide)] at h
    rw [if_pos (by decide)] at h
    simp [parsePopLine, requireStack, hctx, bind, Except.bind] at h
  by_cases epeek : t0 = "peek"
  · subst epeek
    simp only [parseLine, hhead] at h
    rw [if_neg (by decide)] at h
    rw [if_neg (by decide)] at h
    rw [if_neg (by decide)] at h
    rw [if_neg (fun hc => absurd hc.1 (by decide))] at h
    rw [if_neg (by decide)] at h
    rw [if_neg (by decide)] at h
    rw [if_neg (by decide)] at h
    rw [if_pos (by decide)] at h
    simp [parsePeekLine, requireStack, hctx, bind, Except.bind] at h
  by_cases epoke : t0 = "poke"
  · subst epoke
    simp only [parseLine, hhead] at h
    rw [if_neg (by decide)] at h
    rw [if_neg (by decide)] at h
    rw [if_neg (by decide)] at h
    rw [if_neg (fun hc => absurd hc.1 (by decide))] at h
    rw [if_neg (by decide)] at h
    rw [if_neg (by decide)] at h
    rw [if_pos (by decide)] at h
    simp [parsePokeLine, requireStack, hctx, bind, Except.bind] at h
  by_cases ecallproc : t0 = "callproc"
  · subst ecallproc
    simp only [parseLine, hhead] at h
    rw [if_neg (by decide)] at h
    rw [if_pos (by decide)] at h
    simp [parseCallprocLine, requireStack, hctx, bind, Except.bind] at h
  by_cases eret : t0 = "ret"
  · subst eret
    simp only [parseLine, hhead] at h
    rw [if_neg (by decide)] at h
    rw [if_neg (by decide)] at h
    rw [if_pos (by decide)] at h
    simp [parseRetLine, requireStack, hctx, bind, Except.bind] at h
  by_cases efn : t0 = "fn"
  · subst efn
    simp only [parseLine, hhead] at h
    rw [if_neg (by decide)] at h
    rw [if_neg (by decide)] at h
    rw [if_neg (by decide)] at h
    rw [if_neg (fun hc => absurd hc.1 (by decide))] at h
    rw [if_neg (by decide)] at h
    rw [if_neg (by decide)] at h
    rw [if_neg (by decide)] at h
    rw [if_neg (by decide)] at h
    rw [if_neg (by decide)] at h
    rw [if_neg (by decide)] at h
    rw [if_neg (by decide)] at h
    rw [if_neg (by decide)] at h
    rw [if_neg (by decide)] at h
    rw [if_neg (by decide)] at h
    rw [if_neg (by decide)] at h
    rw [if_neg (by decide)] at h
    rw [if_pos (by decide)] at h
    simp [parseFunctionLine, requireStack, hctx, bind, Except.bind] at h
  by_cases ereturn : t0 = "return"
  · subst ereturn
    simp only [parseLine, hhead] at h
    rw [if_neg (by decide)] at h
    rw [if_neg (by decide)] at h
    rw [if_neg (by decide)] at h
    rw [if_neg (fun hc => absurd hc.1 (by decide))] at h
    rw [if_neg (by decide)] at h
    rw [if_neg (by decide)] at h
    rw [if_neg (by decide)] at h
    rw [if_neg (by decide)] at h
    rw [if_neg (by decide)] at h
    rw [if_neg (by decide)] at h
    rw [if_neg (by decide)] at h
    rw [if_neg (by decide)] at h
    rw [if_neg (by decide)] at h
    rw [if_neg (by decide)] at h
    rw [if_neg (by decide)] at h
    rw [if_neg (by decide)] at h
    rw [if_neg (by decide)] at h
    rw [if_pos (by decide)] at h
    simp [parseReturnLine, requireStack, hctx, bind, Except.bind] at h
  by_cases ecall : t0 = "call"
  · subst ecall
    simp only [parseLine, hhead] at h
    rw [if_neg (by decide)] at h
    rw [if_neg (by decide)] at h
    rw [if_neg (by decide)] at h
    rw [if_neg (fun hc => absurd hc.1 (by decide))] at h
    rw [if_neg (by decide)] at h
    rw [if_neg (by decide)] at h
    rw [if_neg (by decide)] at h
    rw [if_neg (by decide)] at h
    rw [if_neg (by decide)] at h
    rw [if_neg (by decide)] at h
    rw [if_neg (by decide)] at h
    rw [if_neg (by decide)] at h
    rw [if_neg (by decide)] at h
    rw [if_neg (by decide)] at h
    rw [if_neg (by decide)] at h
    rw [if_neg (by decide)] at h
    rw [if_neg (by decide)] at h
    rw [if_neg (by decide)] at h
    rw [if_pos (by decide)] at h
    simp [parseCallLine, requireStack, hctx, bind, Except.bind] at h
  by_cases elet : t0 = "let"
  · subst elet
    simp only [parseLine, hhead] at h
    rw [if_neg (by decide)] at h
    rw [if_neg (by decide)] at h
    rw [if_neg (by decide)] at h
    rw [if_neg (fun hc => absurd hc.1 (by decide))] at h
    rw [if_neg (by decide)] at h
    rw [if_neg (by decide)] at h
    rw [if_neg (by decide)] at h
    rw [if_neg (by decide)] at h
    rw [if_neg (by decide)] at h
    rw [if_neg (by decide)] at h
    rw [if_neg (by decide)] at h
    rw [if_neg (by decide)] at h
    rw [if_neg (by decide)] at h
    rw [if_neg (by decide)] at h
    rw [if_neg (by decide)] at h
    rw [if_neg (by decide)] at h
    rw [if_neg (by decide)] at h
    rw [if_neg (by decide)] at h
    rw [if_neg (by decide)] at h
    rw [if_pos (by decide)] at h
    simp [parseLetLine, requireStack, hctx, bind, Except.bind] at h
  simp [stackTok, beq_iff_eq, epush, epop, epeek, epoke, ecallproc, eret, efn, ereturn, ecall, elet] at ht

theorem appendOps_hasStack :
    ∀ (l : List IrOp) (ctx : ParserContext),
      (appendOps ctx l).hasStack = ctx.hasStack := by
  intro l
  induction l with
  | nil => intro ctx; rfl
  | cons op rest ih =>
    intro ctx
    simp only [appendOps]
    rw [ih]

theorem parseFold_stackTok_err :
    ∀ (lines : List String) (ctx : ParserContext), ctx.hasStack = false →
      (∃ line ∈ lines, lineStackTok line = true) →
      ∀ ctxf,
        lines.foldlM
          (fun ctx line => do
            let clean := cleanLine line
            let (seq, ctx') ← parseLine ctx clean (lexLine clean)
            Except.ok (appendOps ctx' seq)) ctx ≠ .ok ctxf := by
  intro lines
  induction lines with
  | nil =>
    intro ctx _ hex ctxf h
    obtain ⟨line, hmem, _⟩ := hex
    exact absurd hmem (List.not_mem_nil line)
  | cons a l ih =>
    intro ctx hctx hex ctxf h
    rw [List.foldlM_cons] at h
    cases hp : parseLine ctx (cleanLine a) (lexLine (cleanLine a)) with
    | error e =>
      simp only [bind, Except.bind, hp] at h
      exact Except.noConfusion h
    | ok p =>
      obtain ⟨seq, ctx2⟩ := p
      simp only [bind, Except.bind, hp] at h
      obtain ⟨line, hmem, hst⟩ := hex
      rcases List.mem_cons.mp hmem with rfl | hmem2
      · unfold lineStackTok at hst
        cases hh : (lexLine (cleanLine line)).head? with
        | none => rw [hh] at hst; cases hst
        | some t0 =>
          rw [hh] at hst
          exact parseLine_stackTok_err ctx (cleanLine line) _ (seq, ctx2) t0
            hctx hh hst hp
      · have hctx2 : ctx2.hasStack = false :=
          parseLine_hasStack ctx (cleanLine a) _ (seq, ctx2) hctx hp
        exact ih (appendOps ctx2 seq)
          ((appendOps_hasStack seq ctx2).trans hctx2) ⟨line, hmem2, hst⟩
          ctxf h

/-- C9: when no source line starts with `stack_config`, the stack
configuration defaults to `Internal 0`: a successful parse reports
stack config `Internal 0` with the `Internal` backend and the stack
disabled, `generate` appends no end/dispatch-table lines after the
ops' output, and pass 2 starts from a context with NO prepended
`set MF_stack_sz 0` op (`ops = []`, `instruction_count = 0`);
moreover if any line starts with a stack-requiring construct (push,
pop, peek, poke, callproc, ret, fn, call, return, let), `parse`
returns an error rather than succeeding. -/
theorem claim_C9 (text : String)
    (hns : ∀ line ∈ rustLines text,
      (lexLine (cleanLine line)).head? ≠ some "stack_config") :
    (∀ ir, parse text = .ok ir →
      ir.stackConfig = .Internal 0 ∧
      ir.backend = .Internal ∧
      hasStackFor ir.stackConfig = false ∧
      internalStackLines ir.stackConfig = [] ∧
      (∀ out, generateOps ir 0 ir.ops = .ok out → generate ir = .ok out) ∧
      ∃ pre ctx,
        (rustLines text).foldlM
          (fun st line => preparseLine st (lexLine (cleanLine line)))
          (⟨[], none, []⟩ : PreState) = .ok pre ∧
        (rustLines text).foldlM
          (fun ctx line => do
            let clean := cleanLine line
            let (seq, ctx') ← parseLine ctx clean (lexLine clean)
            Except.ok (appendOps ctx' seq))
          (⟨[], 0, .Internal, [], pre.functions, [], false⟩ : ParserContext)
          = .ok ctx ∧
        ir.ops = ctx.ops ∧ ir.labels = ctx.labels ∧
        ir.functions = ctx.functions ∧
        ir.backendParams =
          .Internal (computeInternalParams ctx.instructionCount 0)) ∧
    ((∃ line ∈ rustLines text, lineStackTok line = true) →
      ∀ ir, parse text ≠ .ok ir) := by
  constructor
  · intro ir hp
    simp only [parse, bind, Except.bind] at hp
    split at hp
    · exact Except.noConfusion hp
    · rename_i pre hpre
      have hsc : pre.stackConfig = none :=
        preFold_stackConfig (rustLines text) ⟨[], none, []⟩ pre hns hpre
      rw [hsc] at hp
      simp only [Option.getD_none, hasStackFor, backendFor,
        Bool.false_eq_true, if_false] at hp
      split at hp
      · exact Except.noConfusion hp
      · rename_i ctx hfold
        cases hp
        refine ⟨rfl, rfl, rfl, rfl, ?_, pre, ctx, hpre, ?_, rfl, rfl, rfl, rfl⟩
        · intro out hout
          simp only [generate, bind, Except.bind, hout, internalStackLines,
            List.append_nil]
        · exact hfold
  · intro hex ir hp
    simp only [parse, bind, Except.bind] at hp
    split at hp
    · exact Except.noConfusion hp
    · rename_i pre hpre
      have hsc : pre.stackConfig = none :=
        preFold_stackConfig (rustLines text) ⟨[], none, []⟩ pre hns hpre
      rw [hsc] at hp
      simp only [Option.getD_none, hasStackFor, backendFor,
        Bool.false_eq_true, if_false] at hp
      split at hp
      · exact Except.noConfusion hp
      · rename_i ctx hfold
        exact parseFold_stackTok_err (rustLines text) _ rfl hex ctx hfold

/-- C9 witness: the one-line program `push`, which has no
`stack_config` line, fails to parse. -/
theorem claim_C9_witness :
    parse "push" ≠ .ok ⟨[], .Internal 0, [], [], .Internal,
      .Internal (computeInternalParams 0 0)⟩ :=
  (claim_C9 "push" (by decide)).2 (by decide)
    ⟨[], .Internal 0, [], [], .Internal,
      .Internal (computeInternalParams 0 0)⟩

end Routerbolt
